import Mathlib

/-!
Verification of the pytypedecl parser core (`parse/parser.py`, `pytd.py`):
a shallow embedding of the AST node types, the grammar's semantic actions,
the indentation-tracking lexer state machine, and the error reporter,
together with theorems about the properties the specification states.

Modelling conventions:
* Python tuples/lists of nodes become Lean `List`s.
* Python `namedtuple` node classes become Lean structures/inductives with the
  same field names and order.
* Machine-level details that no stated property depends on (float values of
  numeric literals) are carried as their literal text.
* Dynamically-typed failures (a Python `TypeError`) and the parser's
  duplicate-identifier error become `Except` errors threaded through the
  semantic values.
-/

namespace Pytd

/-- Literal value carried by a `Scalar` node (`pytd.Scalar`).  `t_NUMBER`
decodes a literal with a `.` to a Python float and others to an int; float
values are kept as their literal text since no analysed property depends on
float arithmetic. -/
inductive ScalarVal where
  | str (s : String)
  | int (n : Int)
  | float (raw : String)
  deriving DecidableEq, Repr

/-- The type-expression variants of `pytd.py` that the parser core constructs:
`NamedType`, `UnknownType`, `NothingType`, `Scalar`, `UnionType`,
`IntersectionType`, `HomogeneousContainerType`, `GenericType`.
(`ClassType`/`NativeType` are populated only by the out-of-scope resolution
pass and are never built by this core.) -/
inductive PyType where
  | named (name : String)
  | unknown
  | nothing
  | scalar (value : ScalarVal)
  | union (type_list : List PyType)
  | intersection (type_list : List PyType)
  | homogeneous (base_type : PyType) (element_type : PyType)
  | generic (base_type : PyType) (parameters : List PyType)

/-- `pytd.Parameter` and `pytd.MutableParameter` ("conceptually a subtype of
Parameter"); both classes expose `name` and `type` fields. -/
inductive Parameter where
  | parameter (name : String) (type : PyType)
  | mutableParameter (name : String) (type : PyType) (new_type : PyType)

/-- Field `name`, shared by both parameter classes. -/
def Parameter.name : Parameter → String
  | .parameter n _ => n
  | .mutableParameter n _ _ => n

/-- Field `type`, shared by both parameter classes. -/
def Parameter.type : Parameter → PyType
  | .parameter _ t => t
  | .mutableParameter _ t _ => t

/-- `pytd.TemplateItem(name, within_type, level)`. -/
structure TemplateItem where
  name : String
  within_type : PyType
  level : Nat

/-- `pytd.Signature(params, return_type, exceptions, template, has_optional)`. -/
structure Signature where
  params : List Parameter
  return_type : PyType
  exceptions : List PyType
  template : List TemplateItem
  has_optional : Bool

/-- `pytd.Function(name, signatures)`. -/
structure Function where
  name : String
  signatures : List Signature

/-- `pytd.Constant(name, type)`. -/
structure Constant where
  name : String
  type : PyType

/-- `pytd.Class(name, parents, methods, constants, template)`. -/
structure Class where
  name : String
  parents : List PyType
  methods : List Function
  constants : List Constant
  template : List TemplateItem

/-- `pytd.TypeDeclUnit(constants, classes, functions, modules)`; the parser
always passes `modules={}`, so the (empty) submodule map is omitted. -/
structure TypeDeclUnit where
  constants : List Constant
  functions : List Function
  classes : List Class

end Pytd

namespace Parser

open Pytd

/-- `Params = namedtuple('Params', ['required', 'has_optional'])`. -/
structure Params where
  required : List Parameter
  has_optional : Bool

/-- `NameAndSig = namedtuple('NameAndSig', ['name', 'signature'])`. -/
structure NameAndSig where
  name : String
  signature : Signature

/-- `parser.Mutator(name, new_type)`: visitor for changing parameters to
before/after instances. -/
structure Mutator where
  name : String
  new_type : PyType

/-- `Mutator.VisitParameter`: if `p.name == self.name` return
`MutableParameter(p.name, p.type, self.new_type)`, else return `p`. -/
def Mutator.VisitParameter (m : Mutator) (p : Parameter) : Parameter :=
  if p.name = m.name then .mutableParameter p.name p.type m.new_type
  else p

/-- Modelled from the spec: the generic substitute-in-tree traversal of the
missing `parse/node.py` (`Node.Visit`), which "walks the signature's child
nodes and replaces matches"; the visitor dispatches per node kind, and
`Mutator` defines only `VisitParameter`, so only plain `Parameter` nodes in
the parameter list are rewritten and every other child node (and node kind)
is rebuilt unchanged. -/
def Signature.Visit (s : Signature) (m : Mutator) : Signature :=
  { s with
    params := s.params.map fun p =>
      match p with
      | .parameter _ _ => m.VisitParameter p
      | .mutableParameter _ _ _ => p }

/-- An exception raised while a grammar action runs. -/
inductive PyErr where
  | typeError
  | duplicateIdentifier
  deriving DecidableEq, Repr

/-- One entry of the `alldefs` (or `funcdefs`) list: the parser collects
`NameAndSig`, `pytd.Constant` and `pytd.Class` values positionally and later
partitions them with `isinstance` filters. -/
inductive TopDef where
  | func (f : NameAndSig)
  | const (c : Constant)
  | cls (c : Pytd.Class)

/-- The `.name` attribute that every collected definition exposes
(`d.name for d in p[7]`). -/
def TopDef.name : TopDef → String
  | .func f => f.name
  | .const c => c.name
  | .cls c => c.name

/-- `parser.MergeSignatures`: group a list of `(name, signature)` pairs by
name with an `OrderedDict` (insertion order preserved; a new name is appended,
an existing name gets the signature appended to its list), then build one
`pytd.Function` per entry. -/
def addSig (d : List (String × List Signature)) (n : String) (s : Signature) :
    List (String × List Signature) :=
  if d.any (fun kv => kv.1 = n) then
    d.map fun kv => if kv.1 = n then (kv.1, kv.2 ++ [s]) else kv
  else
    d ++ [(n, [s])]

/-- `parser.MergeSignatures` (see `addSig` for the `OrderedDict` step). -/
def MergeSignatures (signatures : List NameAndSig) : List Function :=
  (signatures.foldl (fun d x => addSig d x.name x.signature) []).map
    fun kv => ⟨kv.1, kv.2⟩

/-- `p_type_or`: `type : type OR type`.  Flattens only when one side is a
`UnionType` and the other side is specifically a `NamedType`; otherwise the
two operands become the two members of a fresh `UnionType`. -/
def p_type_or (t1 t3 : PyType) : PyType :=
  match t1, t3 with
  | .union l, .named n => .union (l ++ [.named n])
  | .named n, .union l => .union (.named n :: l)
  | _, _ => .union [t1, t3]

/-- `p_type_and`: `type : type AND type`, same shape as `p_type_or` with
`IntersectionType`. -/
def p_type_and (t1 t3 : PyType) : PyType :=
  match t1, t3 with
  | .intersection l, .named n => .intersection (l ++ [.named n])
  | .named n, .intersection l => .intersection (.named n :: l)
  | _, _ => .intersection [t1, t3]

/-- `p_type_homogeneous`: `type : NAME LBRACKET parameters RBRACKET`.
`len(p[3]) == 1` yields a `HomogeneousContainerType`, anything else a
`GenericType`. -/
def p_type_homogeneous (n : String) (parameters : List PyType) : PyType :=
  match parameters with
  | [element_type] => .homogeneous (.named n) element_type
  | _ => .generic (.named n) parameters

/-- `p_type_generic_1`: `type : NAME LBRACKET parameters COMMA RBRACKET`
(trailing comma) always yields a `GenericType`. -/
def p_type_generic_1 (n : String) (parameters : List PyType) : PyType :=
  .generic (.named n) parameters

/-- `p_body_multiple`: `body : mutator body` computes `p[1] + [p[2]]`, but
`p[1]` is a `Mutator` instance, and a `Mutator` defines no `+`, so Python
raises `TypeError` whenever this production is reduced (the inner body value
must already have been computed successfully for the reduction to happen, so
an inner error takes precedence). -/
def p_body_multiple (_m : Mutator) (rest : Except PyErr (List Mutator)) :
    Except PyErr (List Mutator) :=
  match rest with
  | .error e => .error e
  | .ok _ => .error .typeError

/-- `p_funcdef`: build
`Signature(params=tuple(p[5].required), return_type=p[7],
exceptions=tuple(p[8]), template=tuple(p[2]), has_optional=p[5].has_optional)`
then apply each mutator of the body via `signature.Visit(mutator)`.
The `signature` doc-string value `p[9]` is accepted but never used by the
action.  A `TypeError` raised while the body list was built propagates. -/
def p_funcdef (template : List TemplateItem) (name : String) (params : Params)
    (ret : PyType) (raises : List PyType) (_sigdoc : Option String)
    (body : Except PyErr (List Mutator)) : Except PyErr NameAndSig := do
  let signature : Signature :=
    { params := params.required, return_type := ret, exceptions := raises
      template := template, has_optional := params.has_optional }
  let mutators ← body
  .ok ⟨name, mutators.foldl Signature.Visit signature⟩

/-- Truthiness of `set(a) & set(b)` for name sets: the intersection is
non-empty. -/
def namesIntersect (a b : List String) : Bool :=
  a.any fun n => b.contains n

/-- Python `set(a) == set(b)` on name lists: same membership. -/
def namesSetEq (a b : List String) : Bool :=
  (a.all fun n => b.contains n) && (b.all fun n => a.contains n)

/-- `p_classdef`'s semantic action after the member list `p[7]` is available:
partition into `funcdefs`/`constants` with `isinstance` filters, raise
`Duplicate identifier(s)` when
`set(f.name ...) | set(c.name ...) != set(d.name for d in p[7])`,
then build `pytd.Class`. -/
def p_classdef (template : List TemplateItem) (name : String)
    (parents : List PyType) (items : List TopDef) : Except PyErr Pytd.Class :=
  let funcdefs := items.filterMap fun d =>
    match d with | .func f => some f | _ => none
  let constants := items.filterMap fun d =>
    match d with | .const c => some c | _ => none
  if !namesSetEq (funcdefs.map NameAndSig.name ++ constants.map Constant.name)
      (items.map TopDef.name) then
    .error .duplicateIdentifier
  else
    .ok { name := name, parents := parents
          methods := MergeSignatures funcdefs
          constants := constants, template := template }

/-- `p_unit`'s semantic action: partition `alldefs` with `isinstance`
filters, raise `Duplicate identifier(s)` when any two of the three name sets
(functions, constants, classes) intersect, then build `pytd.TypeDeclUnit`
with the merged function signatures. -/
def p_unit (defs : List TopDef) : Except PyErr TypeDeclUnit :=
  let funcdefs := defs.filterMap fun d =>
    match d with | .func f => some f | _ => none
  let constants := defs.filterMap fun d =>
    match d with | .const c => some c | _ => none
  let classes := defs.filterMap fun d =>
    match d with | .cls c => some c | _ => none
  if namesIntersect (funcdefs.map NameAndSig.name) (constants.map Constant.name)
      || namesIntersect (constants.map Constant.name) (classes.map Pytd.Class.name)
      || namesIntersect (classes.map Pytd.Class.name) (funcdefs.map NameAndSig.name)
      then
    .error .duplicateIdentifier
  else
    .ok { constants := constants
          functions := MergeSignatures funcdefs
          classes := classes }

end Parser

namespace Parser

open Pytd

/-- The token kinds of `PyLexer` (`tokens` list): punctuation, `INDENT`/
`DEDENT`, literals, identifiers, and the reserved words recognised inside
`t_NAME`. -/
inductive Tok where
  | ARROW | AT | COLON | COLONEQUALS | COMMA | DOT | QUESTIONMARK
  | INDENT | DEDENT | LBRACKET | RBRACKET | LPAREN | RPAREN
  | NAME (s : String)
  | NUMBER (v : ScalarVal)
  | STRING (s : String)
  | CLASS | DEF | PASS | AND | OR | NOTHING | RAISES | EXTENDS
  deriving DecidableEq, Repr

/-- The nonterminals of the `TypeDeclParser` grammar. -/
inductive NT where
  | start | unit | alldefs | classdef | class_funcs | parents | parent_list
  | template | templates | template_item | funcdefs | constantdef | funcdef
  | maybe_body | body | mutator | return_ | params | param | raises
  | exceptions | exception | parameters | parameter | signature | type | scalar
  deriving DecidableEq, Repr

/-- The type of semantic value each nonterminal's action produces (`p[0]`).
Nonterminals whose actions (or whose sub-actions) can raise are wrapped in
`Except PyErr`. -/
abbrev SemVal : NT → Type
  | .start => Except PyErr TypeDeclUnit
  | .unit => Except PyErr TypeDeclUnit
  | .alldefs => Except PyErr (List TopDef)
  | .classdef => Except PyErr Pytd.Class
  | .class_funcs => Except PyErr (List TopDef)
  | .parents => List PyType
  | .parent_list => List PyType
  | .template => List TemplateItem
  | .templates => List TemplateItem
  | .template_item => TemplateItem
  | .funcdefs => Except PyErr (List TopDef)
  | .constantdef => Pytd.Constant
  | .funcdef => Except PyErr NameAndSig
  | .maybe_body => Except PyErr (List Mutator)
  | .body => Except PyErr (List Mutator)
  | .mutator => Mutator
  | .return_ => PyType
  | .params => Params
  | .param => Pytd.Parameter
  | .raises => List PyType
  | .exceptions => List PyType
  | .exception => PyType
  | .parameters => List PyType
  | .parameter => PyType
  | .signature => Option String
  | .type => PyType
  | .scalar => PyType

/-- Derivability in the `TypeDeclParser` grammar: `Derives nt ts v` holds when
the token list `ts` can be derived from nonterminal `nt` with semantic value
`v`.  There is exactly one constructor per `p_*` grammar production of the
source, and each constructor computes the value with the source's semantic
action (a successful LALR parse of a token stream yields exactly such a
derivation). -/
inductive Derives : (nt : NT) → List Tok → SemVal nt → Prop where
  | start {ts v} :
      Derives .unit ts v → Derives .start ts v
  | unit {ts v} :
      Derives .alldefs ts v → Derives .unit ts (v.bind p_unit)
  | alldefs_constant {ts1 v ts2 c} :
      Derives .alldefs ts1 v → Derives .constantdef ts2 c →
      Derives .alldefs (ts1 ++ ts2) (v.map fun l => l ++ [.const c])
  | alldefs_class {ts1 v ts2 c} :
      Derives .alldefs ts1 v → Derives .classdef ts2 c →
      Derives .alldefs (ts1 ++ ts2)
        (do let l ← v; let cc ← c; pure (l ++ [.cls cc]))
  | alldefs_func {ts1 v ts2 f} :
      Derives .alldefs ts1 v → Derives .funcdef ts2 f →
      Derives .alldefs (ts1 ++ ts2)
        (do let l ← v; let ff ← f; pure (l ++ [.func ff]))
  | alldefs_null :
      Derives .alldefs [] (.ok [])
  | classdef {ts2 tpl n ts4 par ts7 items} :
      Derives .template ts2 tpl → Derives .parents ts4 par →
      Derives .class_funcs ts7 items →
      Derives .classdef
        ([Tok.CLASS] ++ ts2 ++ [Tok.NAME n] ++ ts4 ++
          [Tok.COLON, Tok.INDENT] ++ ts7 ++ [Tok.DEDENT])
        (items.bind (p_classdef tpl n par))
  | class_funcs {ts v} :
      Derives .funcdefs ts v → Derives .class_funcs ts v
  | class_funcs_pass :
      Derives .class_funcs [Tok.PASS] (.ok [])
  | parents {ts v} :
      Derives .parent_list ts v →
      Derives .parents ([Tok.LPAREN] ++ ts ++ [Tok.RPAREN]) v
  | parents_null :
      Derives .parents [] []
  | parent_list_multi {ts1 v ts2 t} :
      Derives .parent_list ts1 v → Derives .type ts2 t →
      Derives .parent_list (ts1 ++ [Tok.COMMA] ++ ts2) (v ++ [t])
  | parent_list_1 {ts t} :
      Derives .type ts t → Derives .parent_list ts [t]
  | template {ts v} :
      Derives .templates ts v →
      Derives .template ([Tok.LBRACKET] ++ ts ++ [Tok.RBRACKET]) v
  | template_null :
      Derives .template [] []
  | templates_multi {ts1 v ts2 i} :
      Derives .templates ts1 v → Derives .template_item ts2 i →
      Derives .templates (ts1 ++ [Tok.COMMA] ++ ts2) (v ++ [i])
  | templates_1 {ts i} :
      Derives .template_item ts i → Derives .templates ts [i]
  | template_item {n} :
      Derives .template_item [Tok.NAME n] ⟨n, .named "object", 0⟩
  | template_item_subclss {n ts t} :
      Derives .type ts t →
      Derives .template_item ([Tok.NAME n, Tok.EXTENDS] ++ ts) ⟨n, t, 0⟩
  | funcdefs_func {ts1 v ts2 f} :
      Derives .funcdefs ts1 v → Derives .funcdef ts2 f →
      Derives .funcdefs (ts1 ++ ts2)
        (do let l ← v; let ff ← f; pure (l ++ [.func ff]))
  | funcdefs_constant {ts1 v ts2 c} :
      Derives .funcdefs ts1 v → Derives .constantdef ts2 c →
      Derives .funcdefs (ts1 ++ ts2) (v.map fun l => l ++ [.const c])
  | funcdefs_null :
      Derives .funcdefs [] (.ok [])
  | constantdef {n ts t} :
      Derives .type ts t →
      Derives .constantdef ([Tok.NAME n, Tok.COLON] ++ ts) ⟨n, t⟩
  | funcdef {ts2 tpl n ts5 ps ts7 r ts8 ex ts9 sd ts10 mb} :
      Derives .template ts2 tpl → Derives .params ts5 ps →
      Derives .return_ ts7 r → Derives .raises ts8 ex →
      Derives .signature ts9 sd → Derives .maybe_body ts10 mb →
      Derives .funcdef
        ([Tok.DEF] ++ ts2 ++ [Tok.NAME n, Tok.LPAREN] ++ ts5 ++
          [Tok.RPAREN] ++ ts7 ++ ts8 ++ ts9 ++ ts10)
        (p_funcdef tpl n ps r ex sd mb)
  | empty_body :
      Derives .maybe_body [] (.ok [])
  | has_body {ts v} :
      Derives .body ts v →
      Derives .maybe_body ([Tok.COLON, Tok.INDENT] ++ ts ++ [Tok.DEDENT]) v
  | body_1 {ts m} :
      Derives .mutator ts m → Derives .body ts (.ok [m])
  | body_multiple {ts1 m ts2 v} :
      Derives .mutator ts1 m → Derives .body ts2 v →
      Derives .body (ts1 ++ ts2) (p_body_multiple m v)
  | mutator {n ts t} :
      Derives .type ts t →
      Derives .mutator ([Tok.NAME n, Tok.COLONEQUALS] ++ ts) ⟨n, t⟩
  | return_ {ts t} :
      Derives .type ts t → Derives .return_ ([Tok.ARROW] ++ ts) t
  | return_null :
      Derives .return_ [] .unknown
  | params_multi {ts1 ps ts2 p} :
      Derives .params ts1 ps → Derives .param ts2 p →
      Derives .params (ts1 ++ [Tok.COMMA] ++ ts2) ⟨ps.required ++ [p], false⟩
  | params_ellipsis {ts1 ps} :
      Derives .params ts1 ps →
      Derives .params (ts1 ++ [Tok.COMMA, Tok.DOT, Tok.DOT, Tok.DOT])
        ⟨ps.required, true⟩
  | params_1 {ts p} :
      Derives .param ts p → Derives .params ts ⟨[p], false⟩
  | params_only_ellipsis :
      Derives .params [Tok.DOT, Tok.DOT, Tok.DOT] ⟨[], true⟩
  | params_null :
      Derives .params [] ⟨[], false⟩
  | param {n} :
      Derives .param [Tok.NAME n] (.parameter n (.named "object"))
  | param_and_type {n ts t} :
      Derives .type ts t →
      Derives .param ([Tok.NAME n, Tok.COLON] ++ ts) (.parameter n t)
  | raise_ {ts v} :
      Derives .exceptions ts v → Derives .raises ([Tok.RAISES] ++ ts) v
  | raise_null :
      Derives .raises [] []
  | exceptions_1 {ts e} :
      Derives .exception ts e → Derives .exceptions ts [e]
  | exceptions_multi {ts1 v ts2 e} :
      Derives .exceptions ts1 v → Derives .exception ts2 e →
      Derives .exceptions (ts1 ++ [Tok.COMMA] ++ ts2) (v ++ [e])
  | exception {ts t} :
      Derives .type ts t → Derives .exception ts t
  | parameters_1 {ts t} :
      Derives .parameter ts t → Derives .parameters ts [t]
  | parameters_multi {ts1 v ts2 t} :
      Derives .parameters ts1 v → Derives .parameter ts2 t →
      Derives .parameters (ts1 ++ [Tok.COMMA] ++ ts2) (v ++ [t])
  | parameter {ts t} :
      Derives .type ts t → Derives .parameter ts t
  | signature_ {s} :
      Derives .signature [Tok.AT, Tok.STRING s] (some s)
  | signature_none :
      Derives .signature [] none
  | type_and {ts1 a ts2 b} :
      Derives .type ts1 a → Derives .type ts2 b →
      Derives .type (ts1 ++ [Tok.AND] ++ ts2) (p_type_and a b)
  | type_or {ts1 a ts2 b} :
      Derives .type ts1 a → Derives .type ts2 b →
      Derives .type (ts1 ++ [Tok.OR] ++ ts2) (p_type_or a b)
  | type_homogeneous {n ts ps} :
      Derives .parameters ts ps →
      Derives .type ([Tok.NAME n, Tok.LBRACKET] ++ ts ++ [Tok.RBRACKET])
        (p_type_homogeneous n ps)
  | type_generic_1 {n ts ps} :
      Derives .parameters ts ps →
      Derives .type
        ([Tok.NAME n, Tok.LBRACKET] ++ ts ++ [Tok.COMMA, Tok.RBRACKET])
        (p_type_generic_1 n ps)
  | type_paren {ts t} :
      Derives .type ts t → Derives .type ([Tok.LPAREN] ++ ts ++ [Tok.RPAREN]) t
  | type_name {n} :
      Derives .type [Tok.NAME n] (.named n)
  | type_unknown :
      Derives .type [Tok.QUESTIONMARK] .unknown
  | type_nothing :
      Derives .type [Tok.NOTHING] .nothing
  | type_constant {ts t} :
      Derives .scalar ts t → Derives .type ts t
  | scalar_string {s} :
      Derives .scalar [Tok.STRING s] (.scalar (.str s))
  | scalar_number {v} :
      Derives .scalar [Tok.NUMBER v] (.scalar v)

/-- `list[-1]` on the indent stack.  The stack always stays non-empty with
bottom element `0` (it starts as `[0]` and `0` is never popped, since a pop
requires a strictly smaller indent), so the `getD` default is never
consulted. -/
def pyLast (l : List Nat) : Nat := l.getLast?.getD 0

/-- Python `str.rfind(c)` over a character list: index of the last
occurrence; `none` models the `-1` result. -/
def pyRfind (l : List Char) (c : Char) : Option Nat :=
  match l with
  | [] => none
  | x :: xs =>
    match pyRfind xs c with
    | some i => some (i + 1)
    | none => if x = c then some 0 else none

/-- The per-invocation lexer state installed by `PyLexer.set_parse_info`:
the indentation stack, the bracket-depth counter, the queued-DEDENT counter
(plus ply's line counter). -/
structure LexState where
  indent_stack : List Nat
  open_brackets : Int
  queued_dedents : Nat
  lineno : Nat
  deriving DecidableEq, Repr

/-- `set_parse_info`: `indent_stack = [0]`, `open_brackets = 0`,
`queued_dedents = 0` (ply starts `lineno` at 1). -/
def set_parse_info : LexState := ⟨[0], 0, 0, 1⟩

/-- A lexical error: `make_syntax_error(self, 'invalid dedent', t)` raised by
`t_WHITESPACE` when a dedent matches no enclosing indentation level. -/
inductive LexErr where
  | invalidDedent
  deriving DecidableEq, Repr

/-- The `while indent < self.indent_stack[-1]` loop of `t_WHITESPACE`,
with the recursion driven by an explicit bound on the number of iterations:
each iteration pops one element, so `stack.length` iterations always
suffice (on an empty stack `pyLast` is `0 ≤ indent`, so the loop stops). -/
def popLoopAux (indent : Nat) : Nat → List Nat → Nat → List Nat × Nat
  | 0, stack, queued => (stack, queued)
  | fuel + 1, stack, queued =>
    if indent < pyLast stack then
      popLoopAux indent fuel stack.dropLast (queued + 1)
    else (stack, queued)

/-- The `while indent < self.indent_stack[-1]` loop of `t_WHITESPACE`: pop
the stack and count one queued DEDENT per extra pop. -/
def popLoop (indent : Nat) (stack : List Nat) (queued : Nat) : List Nat × Nat :=
  popLoopAux indent stack.length stack queued

/-- `t_WHITESPACE` on one matched run of `[\n\r ]+`: returns the new state,
the emitted token (if any), and whether `skip(-1)` was requested.  Follows
the source line by line: first drain one queued DEDENT if any; else count
newlines into `lineno`; inside brackets whitespace is discarded; else measure
the indentation after the last newline (whitespace with no newline is
mid-line and discarded); smaller indentation pops the stack (queueing extra
DEDENTs and requesting a re-scan when more than one pop happened, and
failing with `invalid dedent` when no exact level matches), larger pushes and
emits INDENT, equal emits nothing. -/
def t_WHITESPACE (st : LexState) (value : List Char) :
    Except LexErr (LexState × Option Tok × Bool) :=
  if st.queued_dedents > 0 then
    .ok ({ st with queued_dedents := st.queued_dedents - 1 }, some .DEDENT, false)
  else
    let st := { st with lineno := st.lineno + (value.count '\n') }
    if st.open_brackets ≠ 0 then .ok (st, none, false)
    else
      let spaces_and_newlines := value.filter (· ≠ '\r')
      match pyRfind spaces_and_newlines '\n' with
      | none => .ok (st, none, false)
      | some i =>
        let indent := spaces_and_newlines.length - i - 1
        if indent < pyLast st.indent_stack then
          let s1 := st.indent_stack.dropLast
          let (s2, q) := popLoop indent s1 0
          if indent ≠ pyLast s2 then .error .invalidDedent
          else
            .ok ({ st with indent_stack := s2,
                           queued_dedents := st.queued_dedents + q },
                 some .DEDENT, 0 < q)
        else if pyLast st.indent_stack < indent then
          .ok ({ st with indent_stack := st.indent_stack ++ [indent] },
               some .INDENT, false)
        else .ok (st, none, false)

/-- Process one whitespace run to completion.  When `t_WHITESPACE` requests
`skip(-1)`, the scan position backs up one character, so the lexer
re-matches the final character of the run as a fresh one-character
WHITESPACE match (the following character is not whitespace because the run
was maximal); that re-match drains one queued DEDENT. -/
def lexWhitespace (st : LexState) (value : List Char) :
    Except LexErr (LexState × List Tok) := do
  let (st1, t1, skip) ← t_WHITESPACE st value
  if skip then
    let (st2, t2, _) ← t_WHITESPACE st1 [(value.getLast?.getD ' ')]
    pure (st2, t1.toList ++ t2.toList)
  else
    pure (st1, t1.toList)

/-- Effect of a non-whitespace token on the lexer state: `t_LBRACKET` and
`t_LPAREN` increment `open_brackets`, `t_RBRACKET` and `t_RPAREN` decrement
it, every other token rule leaves the state alone. -/
def lexToken (st : LexState) (k : Tok) : LexState :=
  match k with
  | .LBRACKET => { st with open_brackets := st.open_brackets + 1 }
  | .LPAREN => { st with open_brackets := st.open_brackets + 1 }
  | .RBRACKET => { st with open_brackets := st.open_brackets - 1 }
  | .RPAREN => { st with open_brackets := st.open_brackets - 1 }
  | _ => st

/-- Lexer input, pre-split into maximal lexemes: runs of `[\n\r ]` handled
by `t_WHITESPACE`, and the already-scanned non-whitespace tokens (comments,
being discarded, simply do not appear). -/
inductive LexUnit where
  | ws (value : List Char)
  | tok (k : Tok)

/-- Run the lexer over a pre-split input, collecting the emitted token
stream (the stream the parser consumes). -/
def tokenize (st : LexState) : List LexUnit → Except LexErr (LexState × List Tok)
  | [] => .ok (st, [])
  | .ws v :: rest => do
      let (st1, ts1) ← lexWhitespace st v
      let (st2, ts2) ← tokenize st1 rest
      pure (st2, ts1 ++ ts2)
  | .tok k :: rest => do
      let (st2, ts2) ← tokenize (lexToken st k) rest
      pure (st2, k :: ts2)

/-- Is this token an INDENT? -/
def isINDENT : Tok → Bool
  | .INDENT => true
  | _ => false

/-- Is this token a DEDENT? -/
def isDEDENT : Tok → Bool
  | .DEDENT => true
  | _ => false

/-- Number of INDENT tokens in a stream. -/
def countI (ts : List Tok) : Nat := ts.countP isINDENT

/-- Number of DEDENT tokens in a stream. -/
def countD (ts : List Tok) : Nat := ts.countP isDEDENT


/-- The third argument `p` of `make_syntax_error`: a `yacc.YaccProduction`
(carrying `p.lexpos(1)` and `p.lineno(1)`), a lexer token (carrying
`p.lexpos` and `p.lineno`), or `None` (what ply passes to `p_error` at an
unexpected end of input). -/
inductive ErrCtx where
  | production (lexpos lineno : Nat)
  | token (lexpos lineno : Nat)
  | noneCtx
  deriving DecidableEq, Repr

/-- What `make_syntax_error` raises: the structured
`SyntaxError(msg, (filename, lineno, offset, line))`, or
`SystemError(msg, (lexpos, lineno))` for the production case, or the
`AttributeError` crash of accessing `.lexpos` on `None`. -/
inductive Raised where
  | syntaxError (msg : String) (filename : String) (lineno : Nat)
      (offset : Int) (line : List Char)
  | systemError (msg : String) (lexpos lineno : Nat)
  | attributeError
  deriving DecidableEq, Repr

/-- The source's `last_line_offset` local:
`data.rfind('\n', 0, p.lexpos) + 1` (the `-1` of a failed `rfind` becoming
`0`). -/
def last_line_offset (data : List Char) (lexpos : Nat) : Nat :=
  (((pyRfind (data.take lexpos) '\n').map (· + 1))).getD 0

/-- `parser.make_syntax_error(parser_or_tokenizer, msg, p)`.
For a `YaccProduction` the source notes that ply's yacc catches
`SyntaxError` but "has broken error handling (so we throw a SystemError for
the time being)".  Otherwise it converts the lexer's absolute offset to an
offset within the offending line (`data.rfind('\n', 0, p.lexpos) + 1`),
extracts that line (`data[last_line_offset:].partition('\n')[0]`) and
raises the structured `SyntaxError`; with `p = None` the attribute access
`p.lexpos` itself fails. -/
def make_syntax_error (data : List Char) (filename : String) (msg : String)
    (p : ErrCtx) : Raised :=
  match p with
  | .production lexpos lineno => .systemError msg lexpos lineno
  | .token lexpos lineno =>
      let line := (data.drop (last_line_offset data lexpos)).takeWhile (· ≠ '\n')
      .syntaxError msg filename lineno
        ((lexpos : Int) - (last_line_offset data lexpos : Int) + 1) line
  | .noneCtx => .attributeError

/-- Does a `Raised` diagnostic have the structured shape of the spec
(message, file name, line number, column offset, offending line text)? -/
def Raised.isStructured : Raised → Bool
  | .syntaxError _ _ _ _ _ => true
  | _ => false

/-- Split source text into its lines (the text between newline
separators); used to state, independently of the source's arithmetic, what
"the full text of the offending source line" and "column offset within that
line" mean. -/
def splitLines : List Char → List (List Char)
  | [] => [[]]
  | c :: cs =>
    match splitLines cs with
    | [] => [[c]]
    | l :: ls => if c = '\n' then [] :: l :: ls else (c :: l) :: ls

/-- Index (0-based) of the line containing position `pos`: the number of
newlines before `pos`. -/
def lineIndexAt (data : List Char) (pos : Nat) : Nat :=
  (data.take pos).count '\n'

/-- Start position of the line containing `pos`: the total length of the
earlier lines plus one separator each. -/
def lineStartAt (data : List Char) (pos : Nat) : Nat :=
  ((splitLines data).take (lineIndexAt data pos)).foldl
    (fun a l => a + l.length + 1) 0

/-- Following the spec's words on the overload merger: the list of distinct
names in first-seen order. -/
def firstSeen (names : List String) : List String :=
  names.foldl (fun acc n => if n ∈ acc then acc else acc ++ [n]) []

/-- Following the spec's words (to be compared with `MergeSignatures`):
"one Function entity per distinct name, preserving first-seen order of
names, with `signatures` set to the ordered list of all signatures recorded
under that name, in the order they were declared.  No deduplication of
identical signatures is performed." -/
def specMergeSignatures (signatures : List NameAndSig) : List Function :=
  (firstSeen (signatures.map NameAndSig.name)).map fun n =>
    ⟨n, (signatures.filter fun x => x.name == n).map NameAndSig.signature⟩

/-- The names of `names` not in `seen`, first occurrences only (recursion
helper for relating `firstSeen` and the `OrderedDict` fold). -/
def newNames (seen : List String) : List String → List String
  | [] => []
  | n :: ns => if n ∈ seen then newNames seen ns
               else n :: newNames (seen ++ [n]) ns

/-- The groups the `OrderedDict` fold appends for names not already seen. -/
def newGroups (seen : List String) : List NameAndSig → List (String × List Signature)
  | [] => []
  | x :: xs =>
    if x.name ∈ seen then newGroups seen xs
    else (x.name, ((x :: xs).filter fun y => y.name == x.name).map NameAndSig.signature)
           :: newGroups (seen ++ [x.name]) xs

/-- Names declared by function definitions at module scope. -/
def moduleFuncNames (defs : List TopDef) : List String :=
  defs.filterMap fun d => match d with | .func f => some f.name | _ => none

/-- Names declared by constants at module scope. -/
def moduleConstNames (defs : List TopDef) : List String :=
  defs.filterMap fun d => match d with | .const c => some c.name | _ => none

/-- Names declared by classes at module scope. -/
def moduleClassNames (defs : List TopDef) : List String :=
  defs.filterMap fun d => match d with | .cls c => some c.name | _ => none

end Parser

namespace Pytd

mutual

/-- Structural equality of nodes: same kind, equal fields, recursively.
Every node kind hashes as the tuple of its (recursively hashed) fields —
`UnionType` does not override `__hash__`, so it keeps the order-sensitive
tuple hash even though it overrides `__eq__` — hence structurally equal
nodes always hash equally, and structurally different nodes hash
differently absent a hash collision (hash collisions, which CPython makes
probabilistic, are not modelled).  `pyStructEq` is therefore both the
collision-free model of hash equality and the spec-modelled base-node
structural equality. -/
def pyStructEq : PyType → PyType → Bool
  | .named a, .named b => a == b
  | .unknown, .unknown => true
  | .nothing, .nothing => true
  | .scalar a, .scalar b => a == b
  | .union l1, .union l2 => pyStructEqList l1 l2
  | .intersection l1, .intersection l2 => pyStructEqList l1 l2
  | .homogeneous b1 e1, .homogeneous b2 e2 =>
      pyStructEq b1 b2 && pyStructEq e1 e2
  | .generic b1 p1, .generic b2 p2 => pyStructEq b1 b2 && pyStructEqList p1 p2
  | _, _ => false
termination_by a b => sizeOf a + sizeOf b

/-- Elementwise structural equality of node lists. -/
def pyStructEqList : List PyType → List PyType → Bool
  | [], [] => true
  | x :: xs, y :: ys => pyStructEq x y && pyStructEqList xs ys
  | _, _ => false
termination_by l1 l2 => sizeOf l1 + sizeOf l2

end

/-- Collision-free model of Python hash equality of two nodes (see
`pyStructEq`): `hash(x) == hash(y)` iff the nodes are structurally
equal. -/
def pyHashEq (x y : PyType) : Bool := pyStructEq x y

mutual

/-- Python equality of AST type nodes.  Modelled from the spec: the node
base class of the missing `parse/node.py` compares nodes "structurally (two
nodes with equal field values are interchangeable)", i.e. two nodes are
equal iff they are of the same kind with equal fields — except `UnionType`,
whose `__eq__` override in `pytd.py` (in `src/`) compares
`set(self.type_list) == set(other.type_list)`: the member sets are equal,
where set membership is CPython's hash-guarded probe (see `pyMem`). -/
def pyEq : PyType → PyType → Bool
  | .named a, .named b => a == b
  | .unknown, .unknown => true
  | .nothing, .nothing => true
  | .scalar a, .scalar b => a == b
  | .union l1, .union l2 => pySubset l1 l2 && pySubset l2 l1
  | .intersection l1, .intersection l2 => pyListEq l1 l2
  | .homogeneous b1 e1, .homogeneous b2 e2 => pyEq b1 b2 && pyEq e1 e2
  | .generic b1 p1, .generic b2 p2 => pyEq b1 b2 && pyListEq p1 p2
  | _, _ => false
termination_by a b => sizeOf a + sizeOf b

/-- Elementwise (tuple) equality of node lists (tuple `__eq__` is *not*
hash-guarded; it compares elementwise by `==`). -/
def pyListEq : List PyType → List PyType → Bool
  | [], [] => true
  | x :: xs, y :: ys => pyEq x y && pyListEq xs ys
  | _, _ => false
termination_by l1 l2 => sizeOf l1 + sizeOf l2

/-- Python `x in s` for a set `s`: a hash-guarded probe — a candidate is
found only in its hash bucket (hash equality, modelled collision-free by
`pyHashEq`) and must then compare equal by `__eq__`.  A member that is
`__eq__`-equal but hashes differently (e.g. a `UnionType` with the same
members in another order, whose tuple hash differs) is *not* found. -/
def pyMem : PyType → List PyType → Bool
  | _, [] => false
  | x, y :: ys => (pyHashEq x y && pyEq x y) || pyMem x ys
termination_by x l => sizeOf x + sizeOf l

/-- Every member of the first list is found (by the hash-guarded probe) in
the second. -/
def pySubset : List PyType → List PyType → Bool
  | [], _ => true
  | x :: xs, l => pyMem x l && pySubset xs l
termination_by l1 l2 => sizeOf l1 + sizeOf l2

end

/-- `UnionType.__eq__` from `pytd.py`:
`set(self.type_list) == set(other.type_list)` — mutual inclusion of the two
member sets, membership being the hash-guarded probe of `pyMem`. -/
def UnionType.eq (self other : List PyType) : Bool :=
  pySubset self other && pySubset other self

/-- `isinstance(t, pytd.NamedType)`, the test `p_type_or`/`p_type_and`
apply to the single side. -/
def isNamedType : PyType → Bool
  | .named _ => true
  | _ => false

/-- Is the type one of the two aggregate variants
(`UnionType`/`IntersectionType`)? -/
def isAggregate : PyType → Bool
  | .union _ => true
  | .intersection _ => true
  | _ => false

end Pytd

open Pytd Parser

/-- C4, counterexample: combining an existing `UnionType` with the single
non-aggregate type `UnknownType` via `or` does *not* flatten: the result of
`p_type_or` is the nested pair `UnionType([UnionType([a, b]), UnknownType])`,
not a flattened three-member union. -/
theorem C4_counterexample :
    p_type_or (.union [.named "a", .named "b"]) .unknown
      = .union [.union [.named "a", .named "b"], .unknown] ∧
    p_type_or (.union [.named "a", .named "b"]) .unknown
      ≠ .union [.named "a", .named "b", .unknown] := by
  refine ⟨rfl, ?_⟩
  intro h
  simp [p_type_or] at h

/-- C4, amended: `p_type_or` (resp. `p_type_and`) flattens an existing
`UnionType` (resp. `IntersectionType`) on either side only when the other
side is specifically a `NamedType`; *every* other single (non-aggregate)
type, on either side, for both `or` and `and`, yields the nested
two-member pair; and parsing `"a or b or c"` (all bare names) does yield
the single flattened three-member `UnionType`. -/
theorem C4_flatten_named_only :
    (∀ l n, p_type_or (.union l) (.named n) = .union (l ++ [.named n])) ∧
    (∀ n l, p_type_or (.named n) (.union l) = .union (.named n :: l)) ∧
    (∀ l n, p_type_and (.intersection l) (.named n)
        = .intersection (l ++ [.named n])) ∧
    (∀ n l, p_type_and (.named n) (.intersection l)
        = .intersection (.named n :: l)) ∧
    (∀ (l : List PyType) (t : PyType),
      isNamedType t = false → isAggregate t = false →
      p_type_or (.union l) t = .union [.union l, t] ∧
      p_type_or t (.union l) = .union [t, .union l] ∧
      p_type_and (.intersection l) t = .intersection [.intersection l, t] ∧
      p_type_and t (.intersection l) = .intersection [t, .intersection l]) ∧
    Derives .type [Tok.NAME "a", Tok.OR, Tok.NAME "b", Tok.OR, Tok.NAME "c"]
      (.union [.named "a", .named "b", .named "c"]) := by
  refine ⟨fun l n => rfl, fun n l => rfl, fun l n => rfl, fun n l => rfl,
    fun l t h1 h2 => ?_, ?_⟩
  · cases t with
    | named n => simp [isNamedType] at h1
    | union l2 => simp [isAggregate] at h2
    | intersection l2 => simp [isAggregate] at h2
    | unknown => exact ⟨rfl, rfl, rfl, rfl⟩
    | nothing => exact ⟨rfl, rfl, rfl, rfl⟩
    | scalar v => exact ⟨rfl, rfl, rfl, rfl⟩
    | homogeneous b e => exact ⟨rfl, rfl, rfl, rfl⟩
    | generic b p => exact ⟨rfl, rfl, rfl, rfl⟩
  · exact @Derives.type_or ([Tok.NAME "a"] ++ [Tok.OR] ++ [Tok.NAME "b"])
      (p_type_or (.named "a") (.named "b")) [Tok.NAME "c"] (.named "c")
      (@Derives.type_or [Tok.NAME "a"] (.named "a") [Tok.NAME "b"] (.named "b")
        Derives.type_name Derives.type_name)
      Derives.type_name

/-- C4, witness: the nested-pair clause applied at concrete inputs — a
`UnionType` combined with `UnknownType` on its right, and an
`IntersectionType` with a `HomogeneousContainerType` on its left. -/
theorem C4_flatten_named_only_witness :
    p_type_or (.union [.named "a", .named "b"]) .unknown
      = .union [.union [.named "a", .named "b"], .unknown] ∧
    p_type_and (.homogeneous (.named "list") (.named "int"))
        (.intersection [.named "a"])
      = .intersection [.homogeneous (.named "list") (.named "int"),
          .intersection [.named "a"]] :=
  ⟨(C4_flatten_named_only.2.2.2.2.1 [.named "a", .named "b"] .unknown
      rfl rfl).1,
   (C4_flatten_named_only.2.2.2.2.1 [.named "a"]
      (.homogeneous (.named "list") (.named "int")) rfl rfl).2.2.2⟩

/-- C8: `p_type_homogeneous` builds a `HomogeneousContainerType` exactly for
a one-element parameter list and a `GenericType` for any other length;
`p_type_generic_1` (trailing comma) always builds a `GenericType`; parsing
`"list<int>"` yields `HomogeneousContainerType(Named("list"), Named("int"))`
and `"dict<str, int>"` yields
`GenericType(Named("dict"), [Named("str"), Named("int")])`. -/
theorem C8_parameterized_types :
    (∀ n t, p_type_homogeneous n [t] = .homogeneous (.named n) t) ∧
    (∀ n, p_type_homogeneous n [] = .generic (.named n) []) ∧
    (∀ n t1 t2 rest, p_type_homogeneous n (t1 :: t2 :: rest)
        = .generic (.named n) (t1 :: t2 :: rest)) ∧
    (∀ n ps, p_type_generic_1 n ps = .generic (.named n) ps) ∧
    Derives .type [Tok.NAME "list", Tok.LBRACKET, Tok.NAME "int", Tok.RBRACKET]
      (.homogeneous (.named "list") (.named "int")) ∧
    Derives .type
      [Tok.NAME "dict", Tok.LBRACKET, Tok.NAME "str", Tok.COMMA,
       Tok.NAME "int", Tok.RBRACKET]
      (.generic (.named "dict") [.named "str", .named "int"]) := by
  refine ⟨fun n t => rfl, fun n => rfl, fun n t1 t2 rest => rfl,
    fun n ps => rfl, ?_, ?_⟩
  · exact @Derives.type_homogeneous "list" [Tok.NAME "int"] [.named "int"]
      (Derives.parameters_1 (Derives.parameter Derives.type_name))
  · exact @Derives.type_homogeneous "dict"
      ([Tok.NAME "str"] ++ [Tok.COMMA] ++ [Tok.NAME "int"])
      [.named "str", .named "int"]
      (@Derives.parameters_multi [Tok.NAME "str"] [.named "str"]
        [Tok.NAME "int"] (.named "int")
        (Derives.parameters_1 (Derives.parameter Derives.type_name))
        (Derives.parameter Derives.type_name))

/-- C6: applying a mutator statement to a signature (via the generic
tree-substitution traversal) leaves the return type, exceptions, template
and optionality flag unchanged, preserves the number and order of
parameters, rewrites exactly the plain parameters whose name equals the
mutator's name into `MutableParameter`s carrying the original type and the
new type, leaves every parameter with a different name unchanged, and is a
total no-op on the parameter list when no parameter bears the mutator's
name (no error is raised). -/
theorem C6_mutator_frame (s : Signature) (m : Mutator) :
    (Signature.Visit s m).return_type = s.return_type ∧
    (Signature.Visit s m).exceptions = s.exceptions ∧
    (Signature.Visit s m).template = s.template ∧
    (Signature.Visit s m).has_optional = s.has_optional ∧
    (Signature.Visit s m).params.length = s.params.length ∧
    (∀ i p, s.params.get? i = some p → p.name ≠ m.name →
      (Signature.Visit s m).params.get? i = some p) ∧
    (∀ i n t, s.params.get? i = some (.parameter n t) → n = m.name →
      (Signature.Visit s m).params.get? i
        = some (.mutableParameter n t m.new_type)) ∧
    ((∀ p ∈ s.params, p.name ≠ m.name) →
      (Signature.Visit s m).params = s.params) := by
  refine ⟨rfl, rfl, rfl, rfl, by simp [Signature.Visit], ?_, ?_, ?_⟩
  · intro i p hget hname
    simp only [Signature.Visit, List.get?_map, hget, Option.map_some']
    congr 1
    cases p with
    | parameter n t =>
      simp only [Mutator.VisitParameter, Parameter.name] at hname ⊢
      simp [hname]
    | mutableParameter n t nt => rfl
  · intro i n t hget hname
    simp only [Signature.Visit, List.get?_map, hget, Option.map_some']
    simp [Mutator.VisitParameter, Parameter.name, Parameter.type, hname]
  · intro hall
    simp only [Signature.Visit]
    have : ∀ p ∈ s.params,
        (match p with
          | .parameter _ _ => m.VisitParameter p
          | .mutableParameter _ _ _ => p) = p := by
      intro p hp
      cases p with
      | parameter n t =>
        have := hall _ hp
        simp only [Parameter.name] at this
        simp [Mutator.VisitParameter, Parameter.name, this]
      | mutableParameter n t nt => rfl
    simp [List.map_congr_left this]

/-- C6, witness: for the concrete signature `(x: int, y: float)` and the
mutator `x := str`, the second parameter is untouched, the first becomes a
`MutableParameter`, and the return type is unchanged. -/
theorem C6_mutator_frame_witness :
    (Signature.Visit ⟨[.parameter "x" (.named "int"),
                       .parameter "y" (.named "float")],
        .unknown, [], [], false⟩ ⟨"x", .named "str"⟩).params.get? 1
      = some (.parameter "y" (.named "float")) ∧
    (Signature.Visit ⟨[.parameter "x" (.named "int"),
                       .parameter "y" (.named "float")],
        .unknown, [], [], false⟩ ⟨"x", .named "str"⟩).params.get? 0
      = some (.mutableParameter "x" (.named "int") (.named "str")) ∧
    (Signature.Visit ⟨[.parameter "x" (.named "int"),
                       .parameter "y" (.named "float")],
        .unknown, [], [], false⟩ ⟨"x", .named "str"⟩).return_type
      = .unknown := by
  have h := C6_mutator_frame
    ⟨[.parameter "x" (.named "int"), .parameter "y" (.named "float")],
      .unknown, [], [], false⟩ ⟨"x", .named "str"⟩
  exact ⟨h.2.2.2.2.2.1 1 (.parameter "y" (.named "float")) rfl
          (by simp [Parameter.name]),
         h.2.2.2.2.2.2.1 0 "x" (.named "int") rfl rfl,
         h.1⟩

/-- `namesIntersect` is truthy exactly when some name occurs in both lists
(Python `set(a) & set(b)` truthiness). -/
theorem namesIntersect_iff (a b : List String) :
    namesIntersect a b = true ↔ ∃ n, n ∈ a ∧ n ∈ b := by
  simp [namesIntersect, List.any_eq_true, List.contains]

/-- C10: module-scope validation only rejects a name appearing in two
*different* kinds among functions/constants/classes: `p_unit` fails exactly
when such a cross-kind collision exists; and two constants both named `x`
(resp. two classes both named `C`) parse successfully into a unit keeping
both declarations. -/
theorem C10_same_kind_duplicates :
    (∀ defs : List TopDef,
      (∃ e, p_unit defs = .error e) ↔
        ∃ n : String,
          (n ∈ moduleFuncNames defs ∧ n ∈ moduleConstNames defs) ∨
          (n ∈ moduleConstNames defs ∧ n ∈ moduleClassNames defs) ∨
          (n ∈ moduleClassNames defs ∧ n ∈ moduleFuncNames defs)) ∧
    Derives .start
      [Tok.NAME "x", Tok.COLON, Tok.NAME "int",
       Tok.NAME "x", Tok.COLON, Tok.NAME "str"]
      (.ok ⟨[⟨"x", .named "int"⟩, ⟨"x", .named "str"⟩], [], []⟩) ∧
    Derives .start
      [Tok.CLASS, Tok.NAME "C", Tok.COLON, Tok.INDENT, Tok.PASS, Tok.DEDENT,
       Tok.CLASS, Tok.NAME "C", Tok.COLON, Tok.INDENT, Tok.PASS, Tok.DEDENT]
      (.ok ⟨[], [], [⟨"C", [], [], [], []⟩, ⟨"C", [], [], [], []⟩]⟩) := by
  refine ⟨fun defs => ?_, ?_, ?_⟩
  · have hf : (defs.filterMap fun d =>
        match d with | .func f => some f | _ => none).map NameAndSig.name
        = moduleFuncNames defs := by
      simp only [moduleFuncNames, List.map_filterMap]
      congr 1
      funext d
      cases d <;> rfl
    have hc : (defs.filterMap fun d =>
        match d with | .const c => some c | _ => none).map Constant.name
        = moduleConstNames defs := by
      simp only [moduleConstNames, List.map_filterMap]
      congr 1
      funext d
      cases d <;> rfl
    have hk : (defs.filterMap fun d =>
        match d with | .cls c => some c | _ => none).map Pytd.Class.name
        = moduleClassNames defs := by
      simp only [moduleClassNames, List.map_filterMap]
      congr 1
      funext d
      cases d <;> rfl
    simp only [p_unit, hf, hc, hk]
    split
    · rename_i hcond
      simp only [Bool.or_eq_true, namesIntersect_iff] at hcond
      constructor
      · intro _
        rcases hcond with (⟨n, h1, h2⟩ | ⟨n, h1, h2⟩) | ⟨n, h1, h2⟩
        · exact ⟨n, Or.inl ⟨h1, h2⟩⟩
        · exact ⟨n, Or.inr (Or.inl ⟨h1, h2⟩)⟩
        · exact ⟨n, Or.inr (Or.inr ⟨h1, h2⟩)⟩
      · intro _
        exact ⟨.duplicateIdentifier, rfl⟩
    · rename_i hcond
      simp only [Bool.or_eq_true, namesIntersect_iff] at hcond
      push_neg at hcond
      constructor
      · intro ⟨e, he⟩
        cases he
      · intro ⟨n, hn⟩
        obtain ⟨⟨hA, hB⟩, hC⟩ := hcond
        rcases hn with h | h | h
        · exact absurd (hA n h.1) (not_not.mpr h.2)
        · exact absurd (hB n h.1) (not_not.mpr h.2)
        · exact absurd (hC n h.1) (not_not.mpr h.2)
  · have c1 : Derives .constantdef [Tok.NAME "x", Tok.COLON, Tok.NAME "int"]
        ⟨"x", .named "int"⟩ := Derives.constantdef Derives.type_name
    have c2 : Derives .constantdef [Tok.NAME "x", Tok.COLON, Tok.NAME "str"]
        ⟨"x", .named "str"⟩ := Derives.constantdef Derives.type_name
    have a1 : Derives .alldefs [Tok.NAME "x", Tok.COLON, Tok.NAME "int"]
        (.ok [.const ⟨"x", .named "int"⟩]) :=
      Derives.alldefs_constant Derives.alldefs_null c1
    have a2 : Derives .alldefs
        [Tok.NAME "x", Tok.COLON, Tok.NAME "int",
         Tok.NAME "x", Tok.COLON, Tok.NAME "str"]
        (.ok [.const ⟨"x", .named "int"⟩, .const ⟨"x", .named "str"⟩]) :=
      Derives.alldefs_constant a1 c2
    exact Derives.start (Derives.unit a2)
  · have k1 : Derives .classdef
        [Tok.CLASS, Tok.NAME "C", Tok.COLON, Tok.INDENT, Tok.PASS, Tok.DEDENT]
        (.ok ⟨"C", [], [], [], []⟩) :=
      Derives.classdef Derives.template_null Derives.parents_null
        Derives.class_funcs_pass
    have a1 : Derives .alldefs
        [Tok.CLASS, Tok.NAME "C", Tok.COLON, Tok.INDENT, Tok.PASS, Tok.DEDENT]
        (.ok [.cls ⟨"C", [], [], [], []⟩]) :=
      Derives.alldefs_class Derives.alldefs_null k1
    have a2 : Derives .alldefs
        [Tok.CLASS, Tok.NAME "C", Tok.COLON, Tok.INDENT, Tok.PASS, Tok.DEDENT,
         Tok.CLASS, Tok.NAME "C", Tok.COLON, Tok.INDENT, Tok.PASS, Tok.DEDENT]
        (.ok [.cls ⟨"C", [], [], [], []⟩, .cls ⟨"C", [], [], [], []⟩]) :=
      Derives.alldefs_class a1 k1
    exact Derives.start (Derives.unit a2)

/-- C1 (failing input): for the source
`"def f(x: int, y: int):\n  x := str\n  y := str\n"` the lexer produces the
expected token stream, but the parse of a body with *two* mutator
statements aborts with a `TypeError`: the production `body : mutator body`
computes `p[1] + [p[2]]` where `p[1]` is a `Mutator` instance, which
supports no `+`.  The claim's "a body with several mutator statements
applies all of them" is therefore violated by the code. -/
theorem C1_two_mutators_type_error :
    tokenize set_parse_info
      [.tok .DEF, .ws [' '], .tok (.NAME "f"), .tok .LPAREN,
       .tok (.NAME "x"), .tok .COLON, .ws [' '], .tok (.NAME "int"),
       .tok .COMMA, .ws [' '], .tok (.NAME "y"), .tok .COLON, .ws [' '],
       .tok (.NAME "int"), .tok .RPAREN, .tok .COLON,
       .ws ['\n', ' ', ' '], .tok (.NAME "x"), .ws [' '], .tok .COLONEQUALS,
       .ws [' '], .tok (.NAME "str"),
       .ws ['\n', ' ', ' '], .tok (.NAME "y"), .ws [' '], .tok .COLONEQUALS,
       .ws [' '], .tok (.NAME "str"), .ws ['\n']]
      = .ok (⟨[0], 0, 0, 4⟩,
        [Tok.DEF, Tok.NAME "f", Tok.LPAREN, Tok.NAME "x", Tok.COLON,
         Tok.NAME "int", Tok.COMMA, Tok.NAME "y", Tok.COLON, Tok.NAME "int",
         Tok.RPAREN, Tok.COLON, Tok.INDENT, Tok.NAME "x", Tok.COLONEQUALS,
         Tok.NAME "str", Tok.NAME "y", Tok.COLONEQUALS, Tok.NAME "str",
         Tok.DEDENT]) ∧
    Derives .start
      [Tok.DEF, Tok.NAME "f", Tok.LPAREN, Tok.NAME "x", Tok.COLON,
       Tok.NAME "int", Tok.COMMA, Tok.NAME "y", Tok.COLON, Tok.NAME "int",
       Tok.RPAREN, Tok.COLON, Tok.INDENT, Tok.NAME "x", Tok.COLONEQUALS,
       Tok.NAME "str", Tok.NAME "y", Tok.COLONEQUALS, Tok.NAME "str",
       Tok.DEDENT]
      (.error .typeError) := by
  refine ⟨rfl, ?_⟩
  have m1 : Derives .mutator [Tok.NAME "x", Tok.COLONEQUALS, Tok.NAME "str"]
      ⟨"x", .named "str"⟩ := Derives.mutator Derives.type_name
  have m2 : Derives .mutator [Tok.NAME "y", Tok.COLONEQUALS, Tok.NAME "str"]
      ⟨"y", .named "str"⟩ := Derives.mutator Derives.type_name
  have b2 : Derives .body [Tok.NAME "y", Tok.COLONEQUALS, Tok.NAME "str"]
      (.ok [⟨"y", .named "str"⟩]) := Derives.body_1 m2
  have b : Derives .body
      [Tok.NAME "x", Tok.COLONEQUALS, Tok.NAME "str",
       Tok.NAME "y", Tok.COLONEQUALS, Tok.NAME "str"]
      (.error .typeError) := Derives.body_multiple m1 b2
  have mb : Derives .maybe_body
      [Tok.COLON, Tok.INDENT, Tok.NAME "x", Tok.COLONEQUALS, Tok.NAME "str",
       Tok.NAME "y", Tok.COLONEQUALS, Tok.NAME "str", Tok.DEDENT]
      (.error .typeError) := Derives.has_body b
  have p1 : Derives .param [Tok.NAME "x", Tok.COLON, Tok.NAME "int"]
      (.parameter "x" (.named "int")) := Derives.param_and_type Derives.type_name
  have p2 : Derives .param [Tok.NAME "y", Tok.COLON, Tok.NAME "int"]
      (.parameter "y" (.named "int")) := Derives.param_and_type Derives.type_name
  have ps1 : Derives .params [Tok.NAME "x", Tok.COLON, Tok.NAME "int"]
      ⟨[.parameter "x" (.named "int")], false⟩ := Derives.params_1 p1
  have ps2 : Derives .params
      [Tok.NAME "x", Tok.COLON, Tok.NAME "int", Tok.COMMA,
       Tok.NAME "y", Tok.COLON, Tok.NAME "int"]
      ⟨[.parameter "x" (.named "int"), .parameter "y" (.named "int")], false⟩ :=
    Derives.params_multi ps1 p2
  have fd : Derives .funcdef
      [Tok.DEF, Tok.NAME "f", Tok.LPAREN, Tok.NAME "x", Tok.COLON,
       Tok.NAME "int", Tok.COMMA, Tok.NAME "y", Tok.COLON, Tok.NAME "int",
       Tok.RPAREN, Tok.COLON, Tok.INDENT, Tok.NAME "x", Tok.COLONEQUALS,
       Tok.NAME "str", Tok.NAME "y", Tok.COLONEQUALS, Tok.NAME "str",
       Tok.DEDENT]
      (.error .typeError) :=
    Derives.funcdef Derives.template_null ps2 Derives.return_null
      Derives.raise_null Derives.signature_none mb
  have ad : Derives .alldefs
      [Tok.DEF, Tok.NAME "f", Tok.LPAREN, Tok.NAME "x", Tok.COLON,
       Tok.NAME "int", Tok.COMMA, Tok.NAME "y", Tok.COLON, Tok.NAME "int",
       Tok.RPAREN, Tok.COLON, Tok.INDENT, Tok.NAME "x", Tok.COLONEQUALS,
       Tok.NAME "str", Tok.NAME "y", Tok.COLONEQUALS, Tok.NAME "str",
       Tok.DEDENT]
      (.error .typeError) := Derives.alldefs_func Derives.alldefs_null fd
  exact Derives.start (Derives.unit ad)

/-- C1 (single mutator works): parsing
`"def f(x: int):\n  x := str\n"` yields `Function f` whose single signature
has the single parameter
`MutableParameter(name="x", type=Named("int"), new_type=Named("str"))`. -/
theorem C1_single_mutator_example :
    tokenize set_parse_info
      [.tok .DEF, .ws [' '], .tok (.NAME "f"), .tok .LPAREN,
       .tok (.NAME "x"), .tok .COLON, .ws [' '], .tok (.NAME "int"),
       .tok .RPAREN, .tok .COLON,
       .ws ['\n', ' ', ' '], .tok (.NAME "x"), .ws [' '], .tok .COLONEQUALS,
       .ws [' '], .tok (.NAME "str"), .ws ['\n']]
      = .ok (⟨[0], 0, 0, 3⟩,
        [Tok.DEF, Tok.NAME "f", Tok.LPAREN, Tok.NAME "x", Tok.COLON,
         Tok.NAME "int", Tok.RPAREN, Tok.COLON, Tok.INDENT, Tok.NAME "x",
         Tok.COLONEQUALS, Tok.NAME "str", Tok.DEDENT]) ∧
    Derives .start
      [Tok.DEF, Tok.NAME "f", Tok.LPAREN, Tok.NAME "x", Tok.COLON,
       Tok.NAME "int", Tok.RPAREN, Tok.COLON, Tok.INDENT, Tok.NAME "x",
       Tok.COLONEQUALS, Tok.NAME "str", Tok.DEDENT]
      (.ok ⟨[], [⟨"f", [⟨[.mutableParameter "x" (.named "int") (.named "str")],
        .unknown, [], [], false⟩]⟩], []⟩) := by
  refine ⟨rfl, ?_⟩
  have m1 : Derives .mutator [Tok.NAME "x", Tok.COLONEQUALS, Tok.NAME "str"]
      ⟨"x", .named "str"⟩ := Derives.mutator Derives.type_name
  have mb : Derives .maybe_body
      [Tok.COLON, Tok.INDENT, Tok.NAME "x", Tok.COLONEQUALS, Tok.NAME "str",
       Tok.DEDENT]
      (.ok [⟨"x", .named "str"⟩]) := Derives.has_body (Derives.body_1 m1)
  have ps1 : Derives .params [Tok.NAME "x", Tok.COLON, Tok.NAME "int"]
      ⟨[.parameter "x" (.named "int")], false⟩ :=
    Derives.params_1 (Derives.param_and_type Derives.type_name)
  have fd : Derives .funcdef
      [Tok.DEF, Tok.NAME "f", Tok.LPAREN, Tok.NAME "x", Tok.COLON,
       Tok.NAME "int", Tok.RPAREN, Tok.COLON, Tok.INDENT, Tok.NAME "x",
       Tok.COLONEQUALS, Tok.NAME "str", Tok.DEDENT]
      (.ok ⟨"f", ⟨[.mutableParameter "x" (.named "int") (.named "str")],
        .unknown, [], [], false⟩⟩) :=
    Derives.funcdef Derives.template_null ps1 Derives.return_null
      Derives.raise_null Derives.signature_none mb
  have ad : Derives .alldefs
      [Tok.DEF, Tok.NAME "f", Tok.LPAREN, Tok.NAME "x", Tok.COLON,
       Tok.NAME "int", Tok.RPAREN, Tok.COLON, Tok.INDENT, Tok.NAME "x",
       Tok.COLONEQUALS, Tok.NAME "str", Tok.DEDENT]
      (.ok [.func ⟨"f", ⟨[.mutableParameter "x" (.named "int") (.named "str")],
        .unknown, [], [], false⟩⟩]) :=
    Derives.alldefs_func Derives.alldefs_null fd
  exact Derives.start (Derives.unit ad)

/-- C2 (failing input): the class-scope duplicate check of `p_classdef`
compares the *union* of method and constant names with the set of all member
names — which always holds — so a class declaring a method `f` and a
constant `f` parses successfully into a `Class` carrying both, instead of
failing with a duplicate-identifier error.  Shown on the source
`"class C:\n  def f()\n  f: int\n"`. -/
theorem C2_duplicate_method_constant_accepted :
    tokenize set_parse_info
      [.tok .CLASS, .ws [' '], .tok (.NAME "C"), .tok .COLON,
       .ws ['\n', ' ', ' '], .tok .DEF, .ws [' '], .tok (.NAME "f"),
       .tok .LPAREN, .tok .RPAREN,
       .ws ['\n', ' ', ' '], .tok (.NAME "f"), .tok .COLON, .ws [' '],
       .tok (.NAME "int"), .ws ['\n']]
      = .ok (⟨[0], 0, 0, 4⟩,
        [Tok.CLASS, Tok.NAME "C", Tok.COLON, Tok.INDENT, Tok.DEF,
         Tok.NAME "f", Tok.LPAREN, Tok.RPAREN, Tok.NAME "f", Tok.COLON,
         Tok.NAME "int", Tok.DEDENT]) ∧
    Derives .start
      [Tok.CLASS, Tok.NAME "C", Tok.COLON, Tok.INDENT, Tok.DEF,
       Tok.NAME "f", Tok.LPAREN, Tok.RPAREN, Tok.NAME "f", Tok.COLON,
       Tok.NAME "int", Tok.DEDENT]
      (.ok ⟨[], [],
        [⟨"C", [], [⟨"f", [⟨[], .unknown, [], [], false⟩]⟩],
          [⟨"f", .named "int"⟩], []⟩]⟩) := by
  refine ⟨rfl, ?_⟩
  have fd : Derives .funcdef [Tok.DEF, Tok.NAME "f", Tok.LPAREN, Tok.RPAREN]
      (.ok ⟨"f", ⟨[], .unknown, [], [], false⟩⟩) :=
    Derives.funcdef Derives.template_null Derives.params_null
      Derives.return_null Derives.raise_null Derives.signature_none
      Derives.empty_body
  have fs1 : Derives .funcdefs [Tok.DEF, Tok.NAME "f", Tok.LPAREN, Tok.RPAREN]
      (.ok [.func ⟨"f", ⟨[], .unknown, [], [], false⟩⟩]) :=
    Derives.funcdefs_func Derives.funcdefs_null fd
  have fs2 : Derives .funcdefs
      [Tok.DEF, Tok.NAME "f", Tok.LPAREN, Tok.RPAREN, Tok.NAME "f",
       Tok.COLON, Tok.NAME "int"]
      (.ok [.func ⟨"f", ⟨[], .unknown, [], [], false⟩⟩,
            .const ⟨"f", .named "int"⟩]) :=
    Derives.funcdefs_constant fs1 (Derives.constantdef Derives.type_name)
  have kd : Derives .classdef
      [Tok.CLASS, Tok.NAME "C", Tok.COLON, Tok.INDENT, Tok.DEF,
       Tok.NAME "f", Tok.LPAREN, Tok.RPAREN, Tok.NAME "f", Tok.COLON,
       Tok.NAME "int", Tok.DEDENT]
      (.ok ⟨"C", [], [⟨"f", [⟨[], .unknown, [], [], false⟩]⟩],
        [⟨"f", .named "int"⟩], []⟩) :=
    Derives.classdef Derives.template_null Derives.parents_null
      (Derives.class_funcs fs2)
  have ad : Derives .alldefs
      [Tok.CLASS, Tok.NAME "C", Tok.COLON, Tok.INDENT, Tok.DEF,
       Tok.NAME "f", Tok.LPAREN, Tok.RPAREN, Tok.NAME "f", Tok.COLON,
       Tok.NAME "int", Tok.DEDENT]
      (.ok [.cls ⟨"C", [], [⟨"f", [⟨[], .unknown, [], [], false⟩]⟩],
        [⟨"f", .named "int"⟩], []⟩]) :=
    Derives.alldefs_class Derives.alldefs_null kd
  exact Derives.start (Derives.unit ad)

/-- C2 (the check is vacuous in general): for every member list consisting
of methods and constants — which is all the `class_funcs` grammar can
produce — the union of the method names and constant names equals the set of
all member names, so `p_classdef` never raises the duplicate-identifier
error, whatever duplicates the class body contains. -/
theorem C2_classdef_check_never_fires
    (template : List TemplateItem) (name : String) (parents : List PyType)
    (items : List TopDef)
    (h : ∀ d ∈ items, (match d with | TopDef.cls _ => False | _ => True)) :
    ∃ c, p_classdef template name parents items = .ok c := by
  have hmem : ∀ (l : List String) (n : String), l.contains n = true ↔ n ∈ l := by
    intro l n
    simp [List.contains, List.elem_iff]
  have hset : namesSetEq
      ((items.filterMap fun d =>
          match d with | .func f => some f | _ => none).map NameAndSig.name ++
       (items.filterMap fun d =>
          match d with | .const c => some c | _ => none).map Constant.name)
      (items.map TopDef.name) = true := by
    rw [namesSetEq]
    refine (Bool.and_eq_true _ _).mpr ⟨?_, ?_⟩ <;>
      rw [List.all_eq_true] <;> intro n hn
    · rw [hmem, List.mem_map]
      rw [List.mem_append] at hn
      rcases hn with hn | hn
      · rw [List.mem_map] at hn
        obtain ⟨x, hx, rfl⟩ := hn
        rw [List.mem_filterMap] at hx
        obtain ⟨d, hd, hm⟩ := hx
        refine ⟨d, hd, ?_⟩
        cases d with
        | func f =>
          simp only [Option.some.injEq] at hm
          subst hm
          rfl
        | const c => simp at hm
        | cls c => simp at hm
      · rw [List.mem_map] at hn
        obtain ⟨x, hx, rfl⟩ := hn
        rw [List.mem_filterMap] at hx
        obtain ⟨d, hd, hm⟩ := hx
        refine ⟨d, hd, ?_⟩
        cases d with
        | func f => simp at hm
        | const c =>
          simp only [Option.some.injEq] at hm
          subst hm
          rfl
        | cls c => simp at hm
    · rw [List.mem_map] at hn
      obtain ⟨d, hd, rfl⟩ := hn
      have hnc := h d hd
      rw [hmem]
      rw [List.mem_append]
      cases d with
      | func f =>
        exact Or.inl (List.mem_map.mpr
          ⟨f, List.mem_filterMap.mpr ⟨_, hd, rfl⟩, rfl⟩)
      | const c =>
        exact Or.inr (List.mem_map.mpr
          ⟨c, List.mem_filterMap.mpr ⟨_, hd, rfl⟩, rfl⟩)
      | cls c => exact absurd hnc (by simp)
  exact ⟨⟨name, parents,
    MergeSignatures (items.filterMap fun d =>
      match d with | .func f => some f | _ => none),
    items.filterMap fun d =>
      match d with | .const c => some c | _ => none,
    template⟩, by simp [p_classdef, hset]⟩

/-- C10, witness: the concrete module with two constants both named `x`
is not rejected by the module-scope validation. -/
theorem C10_same_kind_duplicates_witness :
    ¬ ∃ e, p_unit [.const ⟨"x", .named "int"⟩, .const ⟨"x", .named "str"⟩]
      = .error e := by
  rw [C10_same_kind_duplicates.1]
  simp [moduleFuncNames, moduleConstNames, moduleClassNames]

/-- One step of the `OrderedDict` fold, unfolded over a whole signature
list from an arbitrary dictionary state. -/
theorem foldl_addSig (sigs : List NameAndSig) :
    ∀ d : List (String × List Signature),
      sigs.foldl (fun d x => addSig d x.name x.signature) d =
        d.map (fun kv => (kv.1,
          kv.2 ++ (sigs.filter fun x => x.name == kv.1).map NameAndSig.signature))
        ++ newGroups (d.map Prod.fst) sigs := by
  induction sigs with
  | nil =>
    intro d
    simp [newGroups]
  | cons x xs ih =>
    intro d
    rw [List.foldl_cons]
    rw [ih (addSig d x.name x.signature)]
    by_cases hmem : d.any (fun kv => kv.1 = x.name) = true
    · have hkeys : (addSig d x.name x.signature).map Prod.fst = d.map Prod.fst := by
        simp only [addSig, hmem, if_true, List.map_map]
        refine List.map_congr_left fun kv _ => ?_
        by_cases hkv : kv.1 = x.name <;> simp [hkv]
      have hname : x.name ∈ d.map Prod.fst := by
        rw [List.any_eq_true] at hmem
        obtain ⟨kv, hkv, heq⟩ := hmem
        rw [decide_eq_true_eq] at heq
        exact List.mem_map.mpr ⟨kv, hkv, heq⟩
      rw [hkeys]
      have hng : newGroups (d.map Prod.fst) (x :: xs)
          = newGroups (d.map Prod.fst) xs := by
        simp [newGroups, hname]
      rw [hng]
      congr 1
      simp only [addSig, hmem, if_true, List.map_map]
      refine List.map_congr_left fun kv _ => ?_
      by_cases hkv : kv.1 = x.name
      · simp [hkv, List.filter_cons, Function.comp]
      · have : (x.name == kv.1) = false := by
          simp [Ne.symm hkv]
        simp [hkv, List.filter_cons, this, Function.comp]
    · have hmem' : x.name ∉ d.map Prod.fst := by
        intro hx
        obtain ⟨kv, hkv, heq⟩ := List.mem_map.mp hx
        exact hmem (List.any_eq_true.mpr ⟨kv, hkv, decide_eq_true heq⟩)
      have hng : newGroups (d.map Prod.fst) (x :: xs)
          = (x.name, ((x :: xs).filter fun y => y.name == x.name).map
              NameAndSig.signature)
            :: newGroups (d.map Prod.fst ++ [x.name]) xs := by
        simp [newGroups, hmem']
      rw [hng]
      simp only [addSig, hmem, if_false, Bool.false_eq_true]
      rw [List.map_append, List.map_append]
      simp only [List.map_cons, List.map_nil]
      rw [List.append_assoc]
      congr 1
      · refine List.map_congr_left fun kv hkv => ?_
        have : (x.name == kv.1) = false := by
          have : kv.1 ≠ x.name := by
            intro h
            exact hmem' (List.mem_map.mpr ⟨kv, hkv, h⟩)
          simp [Ne.symm this]
        simp [List.filter_cons, this]
      · simp [List.filter_cons]

/-- Unfolding the `firstSeen` fold from an arbitrary accumulator. -/
theorem foldl_firstSeen (names : List String) :
    ∀ acc : List String,
      names.foldl (fun acc n => if n ∈ acc then acc else acc ++ [n]) acc
        = acc ++ newNames acc names := by
  induction names with
  | nil => intro acc; simp [newNames]
  | cons n ns ih =>
    intro acc
    rw [List.foldl_cons]
    by_cases hmem : n ∈ acc
    · rw [if_pos hmem, ih acc]
      simp [newNames, hmem]
    · rw [if_neg hmem, ih (acc ++ [n])]
      simp [newNames, hmem]

/-- A name produced by `newNames seen names` was not in `seen`. -/
theorem mem_newNames_not_seen :
    ∀ (names : List String) (seen : List String) (n : String),
      n ∈ newNames seen names → n ∉ seen := by
  intro names
  induction names with
  | nil => intro seen n h; simp [newNames] at h
  | cons m ms ih =>
    intro seen n h
    by_cases hm : m ∈ seen
    · rw [newNames, if_pos hm] at h
      exact ih seen n h
    · rw [newNames, if_neg hm] at h
      rcases List.mem_cons.mp h with rfl | h
      · exact hm
      · have := ih (seen ++ [m]) n h
        intro hn
        exact this (List.mem_append.mpr (Or.inl hn))

/-- `newGroups` is `newNames` paired with the declaration-ordered
signatures of each name. -/
theorem newGroups_eq (sigs : List NameAndSig) :
    ∀ seen : List String,
      newGroups seen sigs
        = (newNames seen (sigs.map NameAndSig.name)).map fun n =>
            (n, (sigs.filter fun y => y.name == n).map NameAndSig.signature) := by
  induction sigs with
  | nil => intro seen; simp [newGroups, newNames]
  | cons x xs ih =>
    intro seen
    by_cases hm : x.name ∈ seen
    · rw [newGroups, if_pos hm, ih seen]
      rw [List.map_cons, newNames, if_pos hm]
      refine List.map_congr_left fun n hn => ?_
      have hne : x.name ≠ n := by
        intro h
        exact absurd hm (h ▸ mem_newNames_not_seen _ _ _ hn)
      have : (x.name == n) = false := by simp [hne]
      simp [List.filter_cons, this]
    · rw [newGroups, if_neg hm, ih (seen ++ [x.name])]
      rw [List.map_cons, newNames, if_neg hm, List.map_cons]
      congr 1
      refine List.map_congr_left fun n hn => ?_
      have hne : x.name ≠ n := by
        intro h
        have := mem_newNames_not_seen _ _ _ hn
        exact this (List.mem_append.mpr (Or.inr (h ▸ List.mem_singleton.mpr rfl)))
      have hb : (x.name == n) = false := by simp [hne]
      simp [List.filter_cons, hb, hne]

/-- C7: the overload merger agrees exactly with the spec's description —
one `Function` per distinct name in first-seen order, each carrying all that
name's signatures in declaration order with no deduplication
(`specMergeSignatures`) — and parsing two `def f()` blocks yields one
Function `f` with exactly two (identical, undeduplicated) signatures. -/
theorem C7_merge_signatures :
    (∀ sigs : List NameAndSig, MergeSignatures sigs = specMergeSignatures sigs) ∧
    Derives .start
      [Tok.DEF, Tok.NAME "f", Tok.LPAREN, Tok.RPAREN,
       Tok.DEF, Tok.NAME "f", Tok.LPAREN, Tok.RPAREN]
      (.ok ⟨[], [⟨"f", [⟨[], .unknown, [], [], false⟩,
                        ⟨[], .unknown, [], [], false⟩]⟩], []⟩) := by
  constructor
  · intro sigs
    rw [MergeSignatures, foldl_addSig sigs [], specMergeSignatures, firstSeen,
      foldl_firstSeen, newGroups_eq]
    simp [List.map_map, Function.comp]
  · have fd : Derives .funcdef [Tok.DEF, Tok.NAME "f", Tok.LPAREN, Tok.RPAREN]
        (.ok ⟨"f", ⟨[], .unknown, [], [], false⟩⟩) :=
      Derives.funcdef Derives.template_null Derives.params_null
        Derives.return_null Derives.raise_null Derives.signature_none
        Derives.empty_body
    have a1 : Derives .alldefs [Tok.DEF, Tok.NAME "f", Tok.LPAREN, Tok.RPAREN]
        (.ok [.func ⟨"f", ⟨[], .unknown, [], [], false⟩⟩]) :=
      Derives.alldefs_func Derives.alldefs_null fd
    have a2 : Derives .alldefs
        [Tok.DEF, Tok.NAME "f", Tok.LPAREN, Tok.RPAREN,
         Tok.DEF, Tok.NAME "f", Tok.LPAREN, Tok.RPAREN]
        (.ok [.func ⟨"f", ⟨[], .unknown, [], [], false⟩⟩,
              .func ⟨"f", ⟨[], .unknown, [], [], false⟩⟩]) :=
      Derives.alldefs_func a1 fd
    exact Derives.start (Derives.unit a2)

/-- Structural equality of node lists is list equality, given the
elementwise characterisation. -/
theorem pyStructEqList_iff_of :
    ∀ (l1 l2 : List PyType),
      (∀ x ∈ l1, ∀ y : PyType, pyStructEq x y = true ↔ x = y) →
      (pyStructEqList l1 l2 = true ↔ l1 = l2) := by
  intro l1
  induction l1 with
  | nil =>
    intro l2 _
    cases l2 <;> simp [pyStructEqList]
  | cons x xs ih =>
    intro l2 hih
    cases l2 with
    | nil => simp [pyStructEqList]
    | cons y ys =>
      rw [pyStructEqList]
      simp only [Bool.and_eq_true]
      rw [hih x (List.mem_cons_self _ _) y,
        ih ys (fun z hz => hih z (List.mem_cons_of_mem _ hz))]
      simp

/-- Structural node equality characterises equality (strong induction on
node size). -/
theorem pyStructEq_iff_aux :
    ∀ n : Nat, ∀ x y : PyType, sizeOf x = n →
      (pyStructEq x y = true ↔ x = y) := by
  intro n
  induction n using Nat.strong_induction_on with
  | _ n ih =>
    intro x y hx
    cases x with
    | named a => cases y <;> simp [pyStructEq]
    | unknown => cases y <;> simp [pyStructEq]
    | nothing => cases y <;> simp [pyStructEq]
    | scalar v => cases y <;> simp [pyStructEq]
    | union l =>
      cases y with
      | union l2 =>
        have hlist := pyStructEqList_iff_of l l2 (fun z hz y' =>
          ih (sizeOf z) (by
            subst hx
            have := List.sizeOf_lt_of_mem hz
            simp only [PyType.union.sizeOf_spec]
            omega) z y' rfl)
        simp only [pyStructEq]
        rw [hlist]
        simp
      | named b => simp [pyStructEq]
      | unknown => simp [pyStructEq]
      | nothing => simp [pyStructEq]
      | scalar v => simp [pyStructEq]
      | intersection l2 => simp [pyStructEq]
      | homogeneous b2 e2 => simp [pyStructEq]
      | generic b2 p2 => simp [pyStructEq]
    | intersection l =>
      cases y with
      | intersection l2 =>
        have hlist := pyStructEqList_iff_of l l2 (fun z hz y' =>
          ih (sizeOf z) (by
            subst hx
            have := List.sizeOf_lt_of_mem hz
            simp only [PyType.intersection.sizeOf_spec]
            omega) z y' rfl)
        simp only [pyStructEq]
        rw [hlist]
        simp
      | named b => simp [pyStructEq]
      | unknown => simp [pyStructEq]
      | nothing => simp [pyStructEq]
      | scalar v => simp [pyStructEq]
      | union l2 => simp [pyStructEq]
      | homogeneous b2 e2 => simp [pyStructEq]
      | generic b2 p2 => simp [pyStructEq]
    | homogeneous b e =>
      cases y with
      | homogeneous b2 e2 =>
        simp only [pyStructEq, Bool.and_eq_true]
        rw [ih (sizeOf b) (by
              subst hx
              simp only [PyType.homogeneous.sizeOf_spec]
              omega) b b2 rfl,
          ih (sizeOf e) (by
              subst hx
              simp only [PyType.homogeneous.sizeOf_spec]
              omega) e e2 rfl]
        simp
      | named b2 => simp [pyStructEq]
      | unknown => simp [pyStructEq]
      | nothing => simp [pyStructEq]
      | scalar v => simp [pyStructEq]
      | union l2 => simp [pyStructEq]
      | intersection l2 => simp [pyStructEq]
      | generic b2 p2 => simp [pyStructEq]
    | generic b p =>
      cases y with
      | generic b2 p2 =>
        have hlist := pyStructEqList_iff_of p p2 (fun z hz y' =>
          ih (sizeOf z) (by
            subst hx
            have := List.sizeOf_lt_of_mem hz
            simp only [PyType.generic.sizeOf_spec]
            omega) z y' rfl)
        simp only [pyStructEq, Bool.and_eq_true]
        rw [ih (sizeOf b) (by
              subst hx
              simp only [PyType.generic.sizeOf_spec]
              omega) b b2 rfl,
          hlist]
        simp
      | named b2 => simp [pyStructEq]
      | unknown => simp [pyStructEq]
      | nothing => simp [pyStructEq]
      | scalar v => simp [pyStructEq]
      | union l2 => simp [pyStructEq]
      | intersection l2 => simp [pyStructEq]
      | homogeneous b2 e2 => simp [pyStructEq]

/-- Structural node equality is equality. -/
theorem pyStructEq_iff_eq (x y : PyType) : pyStructEq x y = true ↔ x = y :=
  pyStructEq_iff_aux (sizeOf x) x y rfl

/-- A node that compares equal to itself is found in every set that
structurally contains it (it probes its own hash bucket). -/
theorem pyMem_of_mem_of_pyEq (x : PyType) (l : List PyType)
    (hmem : x ∈ l) (hrefl : pyEq x x = true) : pyMem x l = true := by
  induction l with
  | nil => cases hmem
  | cons y ys ih =>
    rw [pyMem]
    rcases List.mem_cons.mp hmem with rfl | h
    · have hs : pyHashEq x x = true := by
        rw [pyHashEq]
        exact (pyStructEq_iff_eq x x).mpr rfl
      simp [hs, hrefl]
    · simp [ih h]

/-- Subset by the hash-guarded probe, reflected. -/
theorem pySubset_iff (l1 l2 : List PyType) :
    pySubset l1 l2 = true ↔ ∀ x ∈ l1, pyMem x l2 = true := by
  induction l1 with
  | nil => simp [pySubset]
  | cons x xs ih => simp [pySubset, Bool.and_eq_true, ih]

/-- Elementwise equality is reflexive once each element is. -/
theorem pyListEq_refl_of (l : List PyType)
    (h : ∀ x ∈ l, pyEq x x = true) : pyListEq l l = true := by
  induction l with
  | nil => simp [pyListEq]
  | cons x xs ih =>
    simp only [pyListEq, Bool.and_eq_true]
    exact ⟨h x (List.mem_cons_self _ _), ih fun y hy => h y (List.mem_cons_of_mem _ hy)⟩

/-- Python node equality is reflexive (strong induction on node size). -/
theorem pyEq_refl_aux : ∀ n : Nat, ∀ x : PyType, sizeOf x = n → pyEq x x = true := by
  intro n
  induction n using Nat.strong_induction_on with
  | _ n ih =>
    intro x hx
    cases x with
    | named s => simp [pyEq]
    | unknown => simp [pyEq]
    | nothing => simp [pyEq]
    | scalar v => simp [pyEq]
    | union l =>
      have hsub : pySubset l l = true := by
        refine (pySubset_iff l l).mpr fun y hy =>
          pyMem_of_mem_of_pyEq y l hy ?_
        refine ih (sizeOf y) ?_ y rfl
        have h1 : sizeOf y < sizeOf l := List.sizeOf_lt_of_mem hy
        subst hx
        simp only [PyType.union.sizeOf_spec]
        omega
      simp [pyEq, hsub]
    | intersection l =>
      have hlist : pyListEq l l = true := by
        refine pyListEq_refl_of l fun y hy => ih (sizeOf y) ?_ y rfl
        have h1 : sizeOf y < sizeOf l := List.sizeOf_lt_of_mem hy
        subst hx
        simp only [PyType.intersection.sizeOf_spec]
        omega
      simp [pyEq, hlist]
    | homogeneous b e =>
      have hb : pyEq b b = true := by
        refine ih (sizeOf b) ?_ b rfl
        subst hx
        simp only [PyType.homogeneous.sizeOf_spec]
        omega
      have he : pyEq e e = true := by
        refine ih (sizeOf e) ?_ e rfl
        subst hx
        simp only [PyType.homogeneous.sizeOf_spec]
        omega
      simp [pyEq, hb, he]
    | generic b p =>
      have hb : pyEq b b = true := by
        refine ih (sizeOf b) ?_ b rfl
        subst hx
        simp only [PyType.generic.sizeOf_spec]
        omega
      have hp : pyListEq p p = true := by
        refine pyListEq_refl_of p fun y hy => ih (sizeOf y) ?_ y rfl
        have h1 : sizeOf y < sizeOf p := List.sizeOf_lt_of_mem hy
        subst hx
        simp only [PyType.generic.sizeOf_spec]
        omega
      simp [pyEq, hb, hp]

/-- The hash-guarded set probe finds exactly the structurally present
members: the guard (collision-free hash equality) forces structural
equality, and a structurally present member is found in its own bucket. -/
theorem pyMem_iff (x : PyType) (l : List PyType) :
    pyMem x l = true ↔ x ∈ l := by
  induction l with
  | nil => simp [pyMem]
  | cons y ys ih =>
    rw [pyMem]
    simp only [Bool.or_eq_true, Bool.and_eq_true, ih, List.mem_cons]
    constructor
    · intro h
      rcases h with ⟨hs, _⟩ | h
      · exact Or.inl ((pyStructEq_iff_eq x y).mp (by rwa [pyHashEq] at hs))
      · exact Or.inr h
    · intro h
      rcases h with rfl | h
      · exact Or.inl ⟨by
          rw [pyHashEq]
          exact (pyStructEq_iff_eq x x).mpr rfl,
          pyEq_refl_aux (sizeOf x) x rfl⟩
      · exact Or.inr h

/-- C9, counterexample: the `UnionType` nodes over member lists
`[Named "a", Named "b"]` and `[Named "b", Named "a"]` compare equal under
the code's node equality (the `__eq__` override compares member *sets*),
although their field values — the ordered member lists — are different; so
"equal iff corresponding field values are equal" fails for `UnionType`. -/
theorem C9_counterexample :
    pyEq (.union [.named "a", .named "b"]) (.union [.named "b", .named "a"])
      = true ∧
    ([PyType.named "a", .named "b"] ≠ [PyType.named "b", .named "a"]) := by
  constructor
  · simp [pyEq, pySubset, pyMem, pyHashEq, pyStructEq]
  · simp

/-- C9, amended: node equality is structural for every node kind except
`UnionType` — in particular two nodes that are literally equal always
compare equal, and `NamedType` nodes compare equal exactly when their names
do — while two `UnionType` nodes compare equal exactly when their member
lists contain the same members *structurally*, ignoring order and
multiplicity: Python's set membership is hash-guarded, `UnionType` keeps
the order-sensitive tuple hash while overriding `__eq__`, so (absent hash
collisions) only structurally equal members are ever found — in
particular, unions whose members are themselves reordered unions compare
*unequal*, as the last conjunct shows. -/
theorem C9_union_set_equality :
    (∀ x : PyType, pyEq x x = true) ∧
    (∀ l1 l2 : List PyType, pyEq (.union l1) (.union l2) = UnionType.eq l1 l2) ∧
    (∀ l1 l2 : List PyType, UnionType.eq l1 l2 = true ↔
      ((∀ x ∈ l1, x ∈ l2) ∧ (∀ y ∈ l2, y ∈ l1))) ∧
    (∀ a b : String, pyEq (.named a) (.named b) = true ↔ a = b) ∧
    pyEq (.union [.union [.named "a", .named "b"]])
        (.union [.union [.named "b", .named "a"]]) = false := by
  refine ⟨fun x => pyEq_refl_aux (sizeOf x) x rfl, fun l1 l2 => ?_,
    fun l1 l2 => ?_, fun a b => ?_, ?_⟩
  · simp [pyEq, UnionType.eq]
  · simp [UnionType.eq, Bool.and_eq_true, pySubset_iff, pyMem_iff]
  · simp [pyEq]
  · simp [pyEq, pySubset, pyMem, pyHashEq, pyStructEq, pyStructEqList]

/-- C9, witness: `UnionType` set equality holds for the concrete pair
`[Named "a"]` and `[Named "a", Named "a"]` (duplicates collapse), via the
amended characterisation. -/
theorem C9_union_set_equality_witness :
    UnionType.eq [PyType.named "a"] [PyType.named "a", PyType.named "a"]
      = true := by
  refine (C9_union_set_equality.2.2.1 _ _).mpr ⟨?_, ?_⟩
  · intro x hx
    rcases List.mem_singleton.mp hx with rfl
    simp
  · intro y hy
    rcases List.mem_cons.mp hy with rfl | hy
    · simp
    · rcases List.mem_singleton.mp hy with rfl
      simp

/-- The measure whose unit steps mirror INDENT/DEDENT emission: stack depth
plus queued DEDENTs. -/
def lexMeasure (st : LexState) : Int :=
  (st.indent_stack.length : Int) + st.queued_dedents

/-- The pop loop preserves "bottom of the stack is 0" and trades stack
entries one-for-one against queued DEDENTs. -/
theorem popLoopAux_count (indent : Nat) :
    ∀ (fuel : Nat) (stack : List Nat) (q : Nat),
      stack.head? = some 0 →
      (popLoopAux indent fuel stack q).1.head? = some 0 ∧
      (popLoopAux indent fuel stack q).1.length + (popLoopAux indent fuel stack q).2
        = stack.length + q := by
  intro fuel
  induction fuel with
  | zero => intro stack q h0; simp [popLoopAux, h0]
  | succ fuel ih =>
    intro stack q h0
    rw [popLoopAux]
    split
    · rename_i hlt
      match stack, h0 with
      | 0 :: rest, _ =>
        match rest with
        | [] => simp [pyLast] at hlt
        | r :: rest' =>
          have hdrop : (0 :: r :: rest').dropLast = 0 :: (r :: rest').dropLast := by
            simp [List.dropLast]
          rw [hdrop]
          have := ih (0 :: (r :: rest').dropLast) (q + 1) (by simp)
          refine ⟨this.1, ?_⟩
          rw [this.2]
          simp [List.length_dropLast]
          omega
    · exact ⟨h0, rfl⟩

/-- One `t_WHITESPACE` step: the bottom of the indent stack stays 0, and
the measure moves exactly by the INDENT/DEDENT weight of the emitted
token. -/
theorem t_WHITESPACE_delta (st : LexState) (v : List Char) (st' : LexState)
    (t : Option Tok) (sk : Bool)
    (h : t_WHITESPACE st v = .ok (st', t, sk))
    (h0 : st.indent_stack.head? = some 0) :
    st'.indent_stack.head? = some 0 ∧
    lexMeasure st' = lexMeasure st
      + ((countI t.toList : Int) - countD t.toList) := by
  simp only [t_WHITESPACE] at h
  split at h
  · rename_i hq
    simp only [Except.ok.injEq, Prod.mk.injEq] at h
    obtain ⟨hst, ht, _⟩ := h
    subst hst
    subst ht
    refine ⟨h0, ?_⟩
    simp [lexMeasure, countI, countD, isINDENT, isDEDENT]
    omega
  · split at h
    · simp only [Except.ok.injEq, Prod.mk.injEq] at h
      obtain ⟨hst, ht, _⟩ := h
      subst hst
      subst ht
      exact ⟨h0, by simp [lexMeasure, countI, countD]⟩
    · split at h
      · simp only [Except.ok.injEq, Prod.mk.injEq] at h
        obtain ⟨hst, ht, _⟩ := h
        subst hst
        subst ht
        exact ⟨h0, by simp [lexMeasure, countI, countD]⟩
      · rename_i hq hob i hfind
        split at h
        · rename_i hlt
          split at h
          · exact absurd h (by simp)
          · rename_i hmatch
            simp only [Except.ok.injEq, Prod.mk.injEq] at h
            obtain ⟨hst, ht, _⟩ := h
            subst hst
            subst ht
            -- the unconditional pop needs a stack of length ≥ 2
            match hstack : st.indent_stack, h0 with
            | 0 :: rest, _ =>
              match rest with
              | [] => simp [hstack, pyLast] at hlt
              | r :: rest' =>
                have hdrop : (0 :: r :: rest').dropLast
                    = 0 :: (r :: rest').dropLast := by
                  simp [List.dropLast]
                have hcount := popLoopAux_count
                  ((List.filter (fun x => decide (x ≠ '\r')) v).length - i - 1)
                  ((0 :: r :: rest').dropLast).length
                  ((0 :: r :: rest').dropLast) 0
                  (by rw [hdrop]; simp)
                simp only [popLoop] at *
                rcases hpop : popLoopAux
                  ((List.filter (fun x => decide (x ≠ '\r')) v).length - i - 1)
                  ((0 :: r :: rest').dropLast).length
                  ((0 :: r :: rest').dropLast) 0 with ⟨s2, q2⟩
                rw [hpop] at hcount
                have h2 := hcount.2
                simp only [List.length_dropLast, List.length_cons] at h2
                constructor
                · exact hcount.1
                · have hq0 : st.queued_dedents = 0 := by omega
                  simp only [lexMeasure, hstack, hq0,
                    show countI (some Tok.DEDENT).toList = 0 from rfl,
                    show countD (some Tok.DEDENT).toList = 1 from rfl,
                    List.length_cons]
                  omega
        · split at h
          · simp only [Except.ok.injEq, Prod.mk.injEq] at h
            obtain ⟨hst, ht, _⟩ := h
            subst hst
            subst ht
            constructor
            · rcases hs : st.indent_stack with _ | ⟨a, l⟩
              · rw [hs] at h0
                simp at h0
              · rw [hs] at h0
                simp only [List.head?_cons, Option.some.injEq] at h0
                subst h0
                simp [hs]
            · simp [lexMeasure, countI, countD, isINDENT, isDEDENT,
                List.length_append]
              omega
          · simp only [Except.ok.injEq, Prod.mk.injEq] at h
            obtain ⟨hst, ht, _⟩ := h
            subst hst
            subst ht
            exact ⟨h0, by simp [lexMeasure, countI, countD]⟩

/-- One whole whitespace run (including the `skip(-1)` re-scan). -/
theorem lexWhitespace_delta (st : LexState) (v : List Char) (st' : LexState)
    (ts : List Tok)
    (h : lexWhitespace st v = .ok (st', ts))
    (h0 : st.indent_stack.head? = some 0) :
    st'.indent_stack.head? = some 0 ∧
    lexMeasure st' = lexMeasure st + ((countI ts : Int) - countD ts) := by
  simp only [lexWhitespace, bind, Except.bind] at h
  cases hw : t_WHITESPACE st v with
  | error e => rw [hw] at h; cases h
  | ok trip =>
    obtain ⟨st1, t1, sk⟩ := trip
    rw [hw] at h
    have hstep1 := t_WHITESPACE_delta st v st1 t1 sk hw h0
    cases sk with
    | false =>
      simp only [Bool.false_eq_true, if_false, pure, Except.pure,
        Except.ok.injEq, Prod.mk.injEq] at h
      obtain ⟨h1, h2⟩ := h
      subst h1
      subst h2
      exact hstep1
    | true =>
      simp only [if_true] at h
      cases hw2 : t_WHITESPACE st1 [v.getLast?.getD ' '] with
      | error e => rw [hw2] at h; cases h
      | ok trip2 =>
        obtain ⟨st2, t2, sk2⟩ := trip2
        rw [hw2] at h
        simp only [pure, Except.pure, Except.ok.injEq, Prod.mk.injEq] at h
        obtain ⟨h1, h2⟩ := h
        subst h1
        subst h2
        have hstep2 := t_WHITESPACE_delta st1 _ st2 t2 sk2 hw2 hstep1.1
        refine ⟨hstep2.1, ?_⟩
        rw [hstep2.2, hstep1.2]
        simp only [countI, countD, List.countP_append]
        omega

/-- Non-whitespace token rules only touch `open_brackets`. -/
theorem lexToken_state (st : LexState) (k : Tok) :
    (lexToken st k).indent_stack = st.indent_stack ∧
    (lexToken st k).queued_dedents = st.queued_dedents := by
  cases k <;> exact ⟨rfl, rfl⟩

/-- Over a whole scan: provided the pre-scanned tokens are never themselves
INDENT/DEDENT (the lexer's `t_INDENT`/`t_DEDENT` patterns `(?!i)i` and
`(?!d)d` match no text, these tokens are only synthesized by
`t_WHITESPACE`), the bottom of the indent stack stays 0 and the measure
moves exactly by the INDENT/DEDENT surplus of the emitted stream. -/
theorem tokenize_delta :
    ∀ (units : List LexUnit) (st st' : LexState) (ts : List Tok),
      (∀ k, LexUnit.tok k ∈ units → isINDENT k = false ∧ isDEDENT k = false) →
      st.indent_stack.head? = some 0 →
      tokenize st units = .ok (st', ts) →
      st'.indent_stack.head? = some 0 ∧
      lexMeasure st' = lexMeasure st + ((countI ts : Int) - countD ts) := by
  intro units
  induction units with
  | nil =>
    intro st st' ts _ h0 h
    simp only [tokenize, Except.ok.injEq, Prod.mk.injEq] at h
    obtain ⟨h1, h2⟩ := h
    subst h1
    subst h2
    exact ⟨h0, by simp [countI, countD]⟩
  | cons u rest ih =>
    intro st st' ts hscan h0 h
    cases u with
    | ws v =>
      simp only [tokenize, bind, Except.bind] at h
      cases hw : lexWhitespace st v with
      | error e => rw [hw] at h; cases h
      | ok p =>
        obtain ⟨st1, ts1⟩ := p
        rw [hw] at h
        simp only [] at h
        cases hr : tokenize st1 rest with
        | error e => rw [hr] at h; cases h
        | ok p2 =>
          obtain ⟨st2, ts2⟩ := p2
          rw [hr] at h
          simp only [pure, Except.pure, Except.ok.injEq, Prod.mk.injEq] at h
          obtain ⟨h1, h2⟩ := h
          subst h1
          subst h2
          have s1 := lexWhitespace_delta st v st1 ts1 hw h0
          have s2 := ih st1 st2 ts2
            (fun k hk => hscan k (List.mem_cons_of_mem _ hk)) s1.1 hr
          refine ⟨s2.1, ?_⟩
          rw [s2.2, s1.2]
          simp only [countI, countD, List.countP_append]
          omega
    | tok k =>
      simp only [tokenize, bind, Except.bind] at h
      cases hr : tokenize (lexToken st k) rest with
      | error e => rw [hr] at h; simp only [] at h; cases h
      | ok p2 =>
        obtain ⟨st2, ts2⟩ := p2
        rw [hr] at h
        simp only [pure, Except.pure, Except.ok.injEq, Prod.mk.injEq] at h
        obtain ⟨h1, h2⟩ := h
        subst h1
        subst h2
        have hlex := lexToken_state st k
        have s2 := ih (lexToken st k) st2 ts2
          (fun k' hk' => hscan k' (List.mem_cons_of_mem _ hk'))
          (by rw [hlex.1]; exact h0) hr
        refine ⟨s2.1, ?_⟩
        rw [s2.2]
        have hk := hscan k (List.mem_cons_self _ _)
        simp only [countI, countD, List.countP_cons, hk.1, hk.2,
          lexMeasure, hlex.1, hlex.2]
        simp

/-- Every token stream derivable in the grammar is INDENT/DEDENT balanced:
the only productions mentioning INDENT (`classdef` and the function body)
pair it with a DEDENT in the same production. -/
theorem Derives_balanced {nt : NT} {ts : List Tok} {v : SemVal nt}
    (h : Derives nt ts v) : countI ts = countD ts := by
  induction h <;>
    simp_all [countI, countD, List.countP_append, List.countP_cons,
      isINDENT, isDEDENT]

/-- C5: for every pre-split source whose scanned (non-whitespace) tokens are
not themselves INDENT/DEDENT — the lexer never scans those; they are only
synthesized by `t_WHITESPACE` — if the lexer finishes and the emitted token
stream is accepted by the grammar (i.e. the parse succeeds), then the
number of INDENT tokens equals the number of DEDENT tokens over the whole
parse, the indentation stack has returned to `[0]` at end of input, and no
queued DEDENT is pending. -/
theorem C5_indent_balance (units : List LexUnit) (st : LexState)
    (ts : List Tok) (v : SemVal .start)
    (hscan : ∀ k, LexUnit.tok k ∈ units → isINDENT k = false ∧ isDEDENT k = false)
    (htok : tokenize set_parse_info units = .ok (st, ts))
    (hparse : Derives .start ts v) :
    countI ts = countD ts ∧ st.indent_stack = [0] ∧ st.queued_dedents = 0 := by
  have hbal := Derives_balanced hparse
  have hdelta := tokenize_delta units set_parse_info st ts hscan
    (by simp [set_parse_info]) htok
  have hm : lexMeasure st = 1 := by
    rw [hdelta.2, hbal]
    simp [lexMeasure, set_parse_info]
  have hlen : st.indent_stack.length = 1 ∧ st.queued_dedents = 0 := by
    simp only [lexMeasure] at hm
    have hne : st.indent_stack.length ≠ 0 := by
      intro hnil
      rw [List.length_eq_zero] at hnil
      rw [hnil] at hdelta
      cases hdelta.1
    constructor <;> omega
  refine ⟨hbal, ?_, hlen.2⟩
  rcases hs : st.indent_stack with _ | ⟨a, l⟩
  · rw [hs] at hdelta
    cases hdelta.1
  · have h0 := hdelta.1
    rw [hs] at h0
    simp only [List.head?_cons, Option.some.injEq] at h0
    have : l = [] := by
      have := hlen.1
      rw [hs] at this
      simp only [List.length_cons] at this
      exact List.length_eq_zero.mp (by omega)
    subst this
    subst h0
    rfl

/-- C5, witness: the concrete program `"class C:\n  pass\n"` tokenizes to a
stream with one INDENT and one DEDENT, parses, and leaves the indent stack
at `[0]`. -/
theorem C5_indent_balance_witness :
    countI [Tok.CLASS, Tok.NAME "C", Tok.COLON, Tok.INDENT, Tok.PASS,
            Tok.DEDENT]
      = countD [Tok.CLASS, Tok.NAME "C", Tok.COLON, Tok.INDENT, Tok.PASS,
            Tok.DEDENT] ∧
    (LexState.mk [0] 0 0 3).indent_stack = [0] ∧
    (LexState.mk [0] 0 0 3).queued_dedents = 0 := by
  have kd : Derives .classdef
      [Tok.CLASS, Tok.NAME "C", Tok.COLON, Tok.INDENT, Tok.PASS, Tok.DEDENT]
      (.ok ⟨"C", [], [], [], []⟩) :=
    Derives.classdef Derives.template_null Derives.parents_null
      Derives.class_funcs_pass
  have ad : Derives .alldefs
      [Tok.CLASS, Tok.NAME "C", Tok.COLON, Tok.INDENT, Tok.PASS, Tok.DEDENT]
      (.ok [.cls ⟨"C", [], [], [], []⟩]) :=
    Derives.alldefs_class Derives.alldefs_null kd
  exact C5_indent_balance
    [.tok .CLASS, .ws [' '], .tok (.NAME "C"), .tok .COLON,
     .ws ['\n', ' ', ' '], .tok .PASS, .ws ['\n']]
    (LexState.mk [0] 0 0 3)
    [Tok.CLASS, Tok.NAME "C", Tok.COLON, Tok.INDENT, Tok.PASS, Tok.DEDENT]
    _
    (by
      intro k hk
      simp only [List.mem_cons, List.not_mem_nil, or_false] at hk
      rcases hk with h | h | h | h | h | h | h <;>
        ((cases h) <;> exact ⟨rfl, rfl⟩))
    rfl
    (Derives.start (Derives.unit ad))

/-- `pyRfind` returns an index inside the list. -/
theorem pyRfind_lt_length :
    ∀ (l : List Char) (c : Char) (i : Nat), pyRfind l c = some i → i < l.length := by
  intro l c
  induction l with
  | nil => intro i h; simp [pyRfind] at h
  | cons x xs ih =>
    intro i h
    rw [pyRfind] at h
    split at h
    · rename_i j hf
      simp only [Option.some.injEq] at h
      subst h
      have := ih j hf
      simp only [List.length_cons]
      omega
    · split at h
      · simp only [Option.some.injEq] at h
        subst h
        simp
      · cases h

/-- `pyRfind` fails exactly when the character does not occur. -/
theorem pyRfind_none_iff (c : Char) :
    ∀ l : List Char, pyRfind l c = none ↔ c ∉ l := by
  intro l
  induction l with
  | nil => simp [pyRfind]
  | cons x xs ih =>
    rw [pyRfind]
    split
    · rename_i j hf
      constructor
      · intro h
        cases h
      · intro h
        have : c ∈ xs := by
          by_contra hc
          rw [← ih] at hc
          rw [hc] at hf
          cases hf
        exact absurd this (by simp at h; exact h.2)
    · rename_i hf
      split
      · rename_i hx
        subst hx
        constructor
        · intro h
          cases h
        · intro h
          exact absurd (List.mem_cons_self _ _) h
      · rename_i hx
        simp only [List.mem_cons]
        constructor
        · intro _ hcon
          rcases hcon with rfl | hcon
          · exact hx rfl
          · exact (ih.mp hf) hcon
        · intro _
          trivial

/-- The computed line-start offset never exceeds the error position. -/
theorem last_line_offset_le (data : List Char) (lexpos : Nat) :
    last_line_offset data lexpos ≤ lexpos := by
  rw [last_line_offset]
  cases hf : pyRfind (data.take lexpos) '\n' with
  | none => simp
  | some i =>
    have := pyRfind_lt_length _ _ _ hf
    simp only [List.length_take] at this
    simp only [Option.map_some', Option.getD_some]
    omega

/-- `splitLines` never returns the empty list. -/
theorem splitLines_ne_nil : ∀ l : List Char, splitLines l ≠ [] := by
  intro l
  cases l with
  | nil => simp [splitLines]
  | cons c cs =>
    rw [splitLines]
    split
    · simp
    · split <;> simp

/-- The first of the split lines is the prefix up to the first newline. -/
theorem splitLines_head :
    ∀ l : List Char, (splitLines l).getD 0 [] = l.takeWhile (· ≠ '\n') := by
  intro l
  induction l with
  | nil => simp [splitLines]
  | cons c cs ih =>
    rw [splitLines]
    split
    · rename_i heq
      exact absurd heq (splitLines_ne_nil cs)
    · rename_i l0 ls heq
      rw [heq] at ih
      split
      · rename_i hc
        subst hc
        simp [List.takeWhile]
      · rename_i hc
        simp only [List.getD_cons_zero] at ih ⊢
        rw [List.takeWhile_cons]
        simp [hc, ih]

/-- Shifting the initial accumulator out of the line-length fold. -/
theorem foldl_lineLen_shift :
    ∀ (ls : List (List Char)) (a : Nat),
      ls.foldl (fun acc l => acc + l.length + 1) a
        = a + ls.foldl (fun acc l => acc + l.length + 1) 0 := by
  intro ls
  induction ls with
  | nil => intro a; simp
  | cons x xs ih =>
    intro a
    rw [List.foldl_cons, List.foldl_cons, ih (a + x.length + 1),
      ih (0 + x.length + 1)]
    omega

/-- The source's `rfind`-based line-start computation and line extraction
agree with the line-splitting description: `last_line_offset` is the start
of the line containing the position, and the extracted text is exactly that
line of `splitLines`. -/
theorem lls_lineStart :
    ∀ (data : List Char) (pos : Nat),
      last_line_offset data pos = lineStartAt data pos ∧
      (data.drop (last_line_offset data pos)).takeWhile (· ≠ '\n')
        = (splitLines data).getD (lineIndexAt data pos) [] := by
  intro data
  induction data with
  | nil =>
    intro pos
    constructor
    · simp [last_line_offset, pyRfind, lineStartAt, lineIndexAt]
    · simp [last_line_offset, pyRfind, lineIndexAt, splitLines]
  | cons c cs ih =>
    intro pos
    cases pos with
    | zero =>
      have hlls : last_line_offset (c :: cs) 0 = 0 := by
        simp [last_line_offset, pyRfind]
      rw [hlls]
      constructor
      · simp [lineStartAt, lineIndexAt]
      · simpa [lineIndexAt] using (splitLines_head (c :: cs)).symm
    | succ p =>
      obtain ⟨ih1, ih2⟩ := ih p
      by_cases hc : c = '\n'
      · subst hc
        have hlls : last_line_offset ('\n' :: cs) (p + 1)
            = last_line_offset cs p + 1 := by
          rw [last_line_offset, last_line_offset, List.take_succ_cons, pyRfind]
          cases hf : pyRfind (cs.take p) '\n' with
          | some i => simp
          | none => simp
        have hidx : lineIndexAt ('\n' :: cs) (p + 1)
            = lineIndexAt cs p + 1 := by
          simp [lineIndexAt, List.take_succ_cons, List.count_cons]
        have hsplit : splitLines ('\n' :: cs) = [] :: splitLines cs := by
          rw [splitLines]
          rcases h : splitLines cs with _ | ⟨l0, ls⟩
          · exact absurd h (splitLines_ne_nil cs)
          · simp
        constructor
        · rw [hlls, lineStartAt, hidx, hsplit]
          rw [lineStartAt] at ih1
          rw [List.take_succ_cons, List.foldl_cons, foldl_lineLen_shift]
          simp only [List.length_nil]
          omega
        · rw [hlls, hidx, hsplit]
          rw [List.drop_succ_cons, List.getD_cons_succ]
          exact ih2
      · rcases hsp : splitLines cs with _ | ⟨l0, ls⟩
        · exact absurd hsp (splitLines_ne_nil cs)
        · have hslc : splitLines (c :: cs) = (c :: l0) :: ls := by
            rw [splitLines, hsp]
            simp [hc]
          cases hf : pyRfind (cs.take p) '\n' with
          | some i =>
            have hlls : last_line_offset (c :: cs) (p + 1) = i + 2 := by
              rw [last_line_offset, List.take_succ_cons, pyRfind, hf]
              simp
            have hllscs : last_line_offset cs p = i + 1 := by
              rw [last_line_offset, hf]
              simp
            have hkpos : 1 ≤ lineIndexAt cs p := by
              rw [lineIndexAt]
              have hmem : '\n' ∈ cs.take p := by
                by_contra hcmem
                rw [← pyRfind_none_iff] at hcmem
                rw [hcmem] at hf
                cases hf
              have := List.count_pos_iff_mem.mpr hmem
              omega
            have hidx : lineIndexAt (c :: cs) (p + 1) = lineIndexAt cs p := by
              simp [lineIndexAt, List.take_succ_cons, List.count_cons, hc]
            obtain ⟨k', hk'⟩ : ∃ k', lineIndexAt cs p = k' + 1 :=
              ⟨lineIndexAt cs p - 1, by omega⟩
            constructor
            · rw [hlls, lineStartAt, hidx, hslc, hk']
              rw [List.take_succ_cons, List.foldl_cons, foldl_lineLen_shift]
              rw [lineStartAt, hsp, hk', List.take_succ_cons, List.foldl_cons,
                foldl_lineLen_shift, hllscs] at ih1
              simp only [List.length_cons] at *
              omega
            · rw [hlls, hidx, hslc]
              rw [show i + 2 = (i + 1) + 1 from rfl, List.drop_succ_cons,
                ← hllscs, hk', List.getD_cons_succ]
              rw [hsp, hk', List.getD_cons_succ] at ih2
              exact ih2
          | none =>
            have hlls : last_line_offset (c :: cs) (p + 1) = 0 := by
              rw [last_line_offset, List.take_succ_cons, pyRfind, hf]
              simp [hc]
            have hmem : '\n' ∉ cs.take p := (pyRfind_none_iff _ _).mp hf
            have hidx : lineIndexAt (c :: cs) (p + 1) = 0 := by
              simp [lineIndexAt, List.take_succ_cons, List.count_cons, hc]
              exact List.count_eq_zero.mpr hmem
            constructor
            · rw [hlls, lineStartAt, hidx]
              simp
            · rw [hlls, hidx]
              simpa using (splitLines_head (c :: cs)).symm

/-- C3, counterexample: a duplicate-identifier failure is raised from a
grammar-production context, and `make_syntax_error` then raises
`SystemError(msg, (lexpos, lineno))` — not the structured diagnostic shape
with file name, column and line text; an unexpected end of input
(`p = None`) crashes with an `AttributeError` rather than producing the
structured shape. -/
theorem C3_counterexample :
    (make_syntax_error ("x: int\ny: str".toList) "<string>"
        "Duplicate identifier(s)" (.production 3 1)).isStructured = false ∧
    make_syntax_error ("x: int\ny: str".toList) "<string>"
        "Duplicate identifier(s)" (.production 3 1)
      = .systemError "Duplicate identifier(s)" 3 1 ∧
    (make_syntax_error ("x: int\ny: str".toList) "<string>"
        "Parse error" .noneCtx).isStructured = false :=
  ⟨rfl, rfl, rfl⟩

/-- C3, amended: only failures carrying a concrete offending token (all
lexical errors, and grammar errors at an unexpected token) are surfaced as
the structured diagnostic — whose message, file name and line number are
passed through, whose column offset is 1-based within the offending line,
and whose line text is exactly the line of the source containing the error
position; a duplicate-identifier failure (production context) is raised as
`SystemError(msg, (lexpos, lineno))`, and an unexpected end of input is an
`AttributeError` crash. -/
theorem C3_error_shapes :
    (∀ (data : List Char) (filename msg : String) (lexpos lineno : Nat),
      make_syntax_error data filename msg (.token lexpos lineno)
        = .syntaxError msg filename lineno
            ((lexpos : Int) - lineStartAt data lexpos + 1)
            ((splitLines data).getD (lineIndexAt data lexpos) []) ∧
      1 ≤ (lexpos : Int) - lineStartAt data lexpos + 1) ∧
    (∀ (data : List Char) (filename msg : String) (lexpos lineno : Nat),
      make_syntax_error data filename msg (.production lexpos lineno)
        = .systemError msg lexpos lineno) ∧
    (∀ (data : List Char) (filename msg : String),
      make_syntax_error data filename msg .noneCtx = .attributeError) := by
  refine ⟨fun data filename msg lexpos lineno => ?_,
    fun data filename msg lexpos lineno => rfl, fun data filename msg => rfl⟩
  obtain ⟨h1, h2⟩ := lls_lineStart data lexpos
  constructor
  · simp only [make_syntax_error]
    rw [h2, h1]
  · have hle := last_line_offset_le data lexpos
    rw [h1] at hle
    omega
